import Mathlib

/-!
Verification development for the lineage_sqlglot repository.

The repository computes column-level lineage for SQL models:
create_manifest_catalog_ref.py resolves ref()/source() placeholders,
expand_sql_ref.py expands star projections through CTEs, and
gen_upstream_lineage.py traces each output column of the outer SELECT
back to base tables, producing lineage rows.

This file gives a shallow embedding of those three modules and proves
the properties stated in the specification.  sqlglot expression trees
are embedded as the inductive type Sx below; Python dicts that the code
iterates in insertion order are embedded as association lists; Python
sets of strings are embedded as duplicate-free lists in insertion order
(the iteration order of a Python set is unspecified, and no property
proved here depends on the order chosen for more than one element).
Python exceptions are embedded with Except.
-/

set_option maxHeartbeats 1000000

namespace LineageSG

/-- Binary operator node kinds dispatched by the binary-operation branch of
extract_source_columns_and_transformation (exp.EQ, exp.NEQ, exp.GT, exp.GTE,
exp.LT, exp.LTE, exp.Add, exp.Sub, exp.Mul, exp.Div). -/
inductive BinK where
  | eq | neq | gt | gte | lt | lte | add | sub | mul | div
deriving DecidableEq, Repr

/-- Aggregate function node kinds dispatched by the aggregate branch of
extract_source_columns_and_transformation (exp.Count, exp.Sum, exp.Min,
exp.Max, exp.Avg). -/
inductive AggK where
  | count | sum | min | max | avg
deriving DecidableEq, Repr

/-- Shallow embedding of the sqlglot expression nodes manipulated by
gen_upstream_lineage.py.

  col n t      : exp.Column; t is the table qualifier, with the empty string
                 meaning that the table arg is absent (node.table gives "").
  ident n      : exp.Identifier.
  lit s        : exp.Literal, carrying its rendered SQL text.
  boolv b      : exp.Boolean.
  star         : exp.Star.
  aliasE i a   : exp.Alias with alias text a.
  paren i      : exp.Paren.
  bin k l r    : a binary operator node.
  agg k a args d : an aggregate node; a is the this arg (None possible),
                 args are the extra expressions, d is args.get("distinct").
                 sqlglot parses COUNT(DISTINCT x) with d = false and
                 a = some (distinctE [x]): the DISTINCT keyword becomes an
                 exp.Distinct wrapper in the this arg, not a distinct flag.
  distinctE args : exp.Distinct.
  castE i ty   : exp.Cast with target type text ty.
  coalesce a args : exp.Coalesce (this arg plus extra expressions).
  other tag kids : any further expression kind, one that falls through every
                 isinstance branch of extract_source_columns_and_transformation
                 to its final else.  (exp.Case and exp.TimestampTrunc have
                 dedicated branches in the source; no claim depends on them
                 and they are outside this model, not mapped to other.) -/
inductive Sx where
  | col (name : String) (table : String)
  | ident (name : String)
  | lit (text : String)
  | boolv (b : Bool)
  | star
  | aliasE (inner : Sx) (aliasName : String)
  | paren (inner : Sx)
  | bin (k : BinK) (lhs rhs : Sx)
  | agg (k : AggK) (arg : Option Sx) (args : List Sx) (distinctFlag : Bool)
  | distinctE (args : List Sx)
  | castE (inner : Sx) (toType : String)
  | coalesce (arg : Option Sx) (args : List Sx)
  | other (tag : String) (kids : List Sx)
deriving Repr

/-- SQL text of a binary operator. -/
def binKSql : BinK → String
  | .eq => "=" | .neq => "<>" | .gt => ">" | .gte => ">=" | .lt => "<"
  | .lte => "<=" | .add => "+" | .sub => "-" | .mul => "*" | .div => "/"

/-- SQL name of an aggregate function. -/
def aggKSql : AggK → String
  | .count => "COUNT" | .sum => "SUM" | .min => "MIN" | .max => "MAX" | .avg => "AVG"

mutual
/-- Embedding of node.sql() for the node kinds of Sx (snowflake dialect,
plain unquoted identifiers).  Used for visited keys and for the
Transformation field of emitted rows. -/
def sxSql : Sx → String
  | .col n t => if t = "" then n else t ++ "." ++ n
  | .ident n => n
  | .lit s => s
  | .boolv b => if b then "TRUE" else "FALSE"
  | .star => "*"
  | .aliasE i a => sxSql i ++ " AS " ++ a
  | .paren i => "(" ++ sxSql i ++ ")"
  | .bin k l r => sxSql l ++ " " ++ binKSql k ++ " " ++ sxSql r
  | .agg k a args d =>
      aggKSql k ++ "(" ++ (if d then "DISTINCT " else "")
        ++ String.intercalate ", " (sxSqlOpt a ++ sxSqlList args) ++ ")"
  | .distinctE args => "DISTINCT " ++ String.intercalate ", " (sxSqlList args)
  | .castE i ty => "CAST(" ++ sxSql i ++ " AS " ++ ty ++ ")"
  | .coalesce a args =>
      "COALESCE(" ++ String.intercalate ", " (sxSqlOpt a ++ sxSqlList args) ++ ")"
  | .other tag kids => tag ++ "(" ++ String.intercalate ", " (sxSqlList kids) ++ ")"

/-- sxSql over an optional node. -/
def sxSqlOpt : Option Sx → List String
  | none => []
  | some x => [sxSql x]

/-- sxSql mapped over a list of nodes. -/
def sxSqlList : List Sx → List String
  | [] => []
  | x :: xs => sxSql x :: sxSqlList xs
end

/-- Embedding of Expression.name (the text of the this arg: the column name
for exp.Column, the identifier text for exp.Identifier, the literal text for
exp.Literal, and the empty string for every node whose this arg is itself an
expression or absent). -/
def sxName : Sx → String
  | .col n _ => n
  | .ident n => n
  | .lit s => s
  | _ => ""

/-- Embedding of Expression.alias_or_name (self.alias or self.name). -/
def aliasOrName : Sx → String
  | .aliasE i a => if a = "" then sxName i else a
  | p => sxName p

/-- Lookup in an association list embedding a Python dict. -/
def alookup {α : Type} (l : List (String × α)) (k : String) : Option α :=
  match l with
  | [] => none
  | (k2, v) :: rest => if k2 = k then some v else alookup rest k

/-- Assignment d[k] = v on a Python dict: an existing key keeps its position
and gets the new value, a new key is appended. -/
def ainsert {α : Type} (l : List (String × α)) (k : String) (v : α) :
    List (String × α) :=
  match l with
  | [] => [(k, v)]
  | (k2, w) :: rest => if k2 = k then (k2, v) :: rest else (k2, w) :: ainsert rest k v

/-- Adding one element to an embedded Python string set. -/
def insertU (l : List String) (x : String) : List String :=
  if x ∈ l then l else l ++ [x]

/-- set.update of an embedded Python string set. -/
def unionU (l : List String) (xs : List String) : List String :=
  xs.foldl insertU l

/-- Python current_table or "unknown": None and the empty string both fall
back to "unknown". -/
def pyOrStr : Option String → String
  | none => "unknown"
  | some s => if s = "" then "unknown" else s

/-- Lineage information recorded per output column of a CTE by process_cte:
the source_columns, transformation and source_table entries. -/
structure ColInfo where
  sourceColumns : List String
  transformation : Sx
  sourceTable : String
deriving Repr

/-- cte_definitions: CTE name to per-column lineage records, insertion order. -/
def CteDefs : Type := List (String × List (String × ColInfo))

mutual
/-- Structural core of the nested function replace_columns inside
trace_column_lineage (lines 83 to 106 of gen_upstream_lineage.py).  On an
exp.Column node it invokes the callback tr (which the caller wires to the
recursive trace at depth + 1); on every other node it rewrites all expression
arguments recursively, as the generic loop over node.args does in the source.
The second component of each result instruments the maximal depth value
reached by trace calls underneath (0 when there are none); it is proof
instrumentation, not data present in the source. -/
def replaceColumnsF (tr : String → Sx → Sx × Nat) (sourceTable : String) :
    Sx → Sx × Nat
  | .col n t =>
      let st := if t ≠ "" then t else sourceTable
      tr st (Sx.col n st)
  | .ident n => (.ident n, 0)
  | .lit s => (.lit s, 0)
  | .boolv b => (.boolv b, 0)
  | .star => (.star, 0)
  | .aliasE i a =>
      let r := replaceColumnsF tr sourceTable i
      (.aliasE r.1 a, r.2)
  | .paren i =>
      let r := replaceColumnsF tr sourceTable i
      (.paren r.1, r.2)
  | .bin k l r =>
      let rl := replaceColumnsF tr sourceTable l
      let rr := replaceColumnsF tr sourceTable r
      (.bin k rl.1 rr.1, Nat.max rl.2 rr.2)
  | .agg k a args d =>
      let ra := replaceOptF tr sourceTable a
      let rl := replaceListF tr sourceTable args
      (.agg k ra.1 rl.1 d, Nat.max ra.2 rl.2)
  | .distinctE args =>
      let rl := replaceListF tr sourceTable args
      (.distinctE rl.1, rl.2)
  | .castE i ty =>
      let r := replaceColumnsF tr sourceTable i
      (.castE r.1 ty, r.2)
  | .coalesce a args =>
      let ra := replaceOptF tr sourceTable a
      let rl := replaceListF tr sourceTable args
      (.coalesce ra.1 rl.1, Nat.max ra.2 rl.2)
  | .other tag kids =>
      let rl := replaceListF tr sourceTable kids
      (.other tag rl.1, rl.2)

/-- replaceColumnsF over an optional argument. -/
def replaceOptF (tr : String → Sx → Sx × Nat) (sourceTable : String) :
    Option Sx → Option Sx × Nat
  | none => (none, 0)
  | some x =>
      let r := replaceColumnsF tr sourceTable x
      (some r.1, r.2)

/-- replaceColumnsF over a list argument. -/
def replaceListF (tr : String → Sx → Sx × Nat) (sourceTable : String) :
    List Sx → List Sx × Nat
  | [] => ([], 0)
  | x :: xs =>
      let r := replaceColumnsF tr sourceTable x
      let rest := replaceListF tr sourceTable xs
      (r.1 :: rest.1, Nat.max r.2 rest.2)
end

/-- The column lookup of trace_column_lineage inside one CTE record (lines
66 to 77 of gen_upstream_lineage.py): the record for the column when present,
else the star fallback (the column itself as source column, the source table
of the star record, the column node as transformation), else nothing (the
early return). -/
def cteHit (cteInfo : List (String × ColInfo)) (colNode : Sx) :
    Option (List String × String × Sx) :=
  match alookup cteInfo (sxName colNode) with
  | some info => some (info.sourceColumns, info.sourceTable, info.transformation)
  | none =>
    match alookup cteInfo "*" with
    | some sInfo => some ([sxName colNode], sInfo.sourceTable, colNode)
    | none => none

/-- Fuel-indexed core of trace_column_lineage (lines 45 to 122 of
gen_upstream_lineage.py).  The source recurses with depth + 1 and a constant
max_depth and returns as soon as depth is at least max_depth, so the fuel here
is max_depth - depth; fuel 0 is exactly the depth guard.  The visited check of
the source precedes the depth guard, but both guards return the identical
tuple (set containing column_node.name, table, column_node), so collapsing
them at fuel 0 is value-preserving.  visited is the set of
(table, column_node.sql()) keys on the current path; the source adds the key
and hands visited.copy() to every recursive call, embedded here by consing.
The second component of the result instruments the maximal value of the depth
argument over the whole recursive call tree (proof instrumentation, not data
present in the source). -/
def traceFuel (cdefs : CteDefs) (tam : List (String × String)) (ct : Option String) :
    Nat → Sx → String → List (String × String) → Nat →
      ((List String × String × Sx) × Nat)
  | 0, colNode, table, _, depth => (([sxName colNode], table, colNode), depth)
  | fuel+1, colNode, table, visited, depth =>
    if (table, sxSql colNode) ∈ visited then
      (([sxName colNode], table, colNode), depth)
    else
      let visited2 := (table, sxSql colNode) :: visited
      match alookup cdefs table with
      | none => (([sxName colNode], table, colNode), depth)
      | some cteInfo =>
        match cteHit cteInfo colNode with
        | none => (([sxName colNode], table, colNode), depth)
        | some (sc, st, ctr) =>
          if st = table ∧ 0 < depth then ((sc, st, ctr), depth)
          else
            let tr := fun (tbl : String) (c : Sx) =>
              let r := traceFuel cdefs tam ct fuel c tbl visited2 (depth+1)
              (r.1.2.2, r.2)
            let rc := replaceColumnsF tr st ctr
            let fold := sc.foldl
              (fun (acc : List String × List String × Nat) srcCol =>
                let r := traceFuel cdefs tam ct fuel (Sx.col srcCol st) st visited2 (depth+1)
                (unionU acc.1 r.1.1, insertU acc.2.1 r.1.2.1, Nat.max acc.2.2 r.2))
              ([], [], 0)
            ((fold.1, String.intercalate ", " fold.2.1, rc.1),
             Nat.max depth (Nat.max rc.2 fold.2.2))

/-- trace_column_lineage of gen_upstream_lineage.py.  Returns the tuple
(final_columns, joined final_tables, full_transformation).  The parameters
table_alias_map and current_table are carried but never read, exactly as in
the source, where they are only forwarded to recursive calls. -/
def trace_column_lineage (colNode : Sx) (table : String) (cdefs : CteDefs)
    (tam : List (String × String)) (ct : Option String)
    (visited : List (String × String)) (depth maxDepth : Nat) :
    List String × String × Sx :=
  (traceFuel cdefs tam ct (maxDepth - depth) colNode table visited depth).1

/-- The maximal value of the depth argument over the whole call tree of one
trace_column_lineage invocation (from the instrumented second component). -/
def traceMaxDepthReached (colNode : Sx) (table : String) (cdefs : CteDefs)
    (tam : List (String × String)) (ct : Option String)
    (visited : List (String × String)) (depth maxDepth : Nat) : Nat :=
  (traceFuel cdefs tam ct (maxDepth - depth) colNode table visited depth).2

/-! Embedding of the regex search in extract_source_info_from_transformation.
The pattern is, in Python notation, an optional double quote, two optional
groups of word characters followed by a dot, a group of word characters, an
optional double quote, a literal dot, and a final group of word characters.
Each optional piece is tried present before absent, groups of word characters
are greedy, and the search scans start positions from the left, exactly as
the Python engine does. -/

/-- Word characters, the regex class backslash-w. -/
def isWordChar (c : Char) : Bool := c.isAlphanum || c = '_'

/-- Match one group of word characters followed by a literal dot at the head
of the input; the captured text includes the trailing dot, as the Python
group does. -/
def matchWordDot (cs : List Char) : Option (List Char × List Char) :=
  let w := cs.takeWhile isWordChar
  let r := cs.dropWhile isWordChar
  if w = [] then none
  else
    match r with
    | '.' :: r2 => some (w ++ ['.'], r2)
    | _ => none

/-- Match the pattern tail: the table group, an optional double quote, a
literal dot and the column group.  Returns the captured table and column. -/
def matchTail (cs : List Char) : Option (List Char × List Char) :=
  let w3 := cs.takeWhile isWordChar
  let r := cs.dropWhile isWordChar
  if w3 = [] then none
  else
    match r with
    | '"' :: '.' :: r2 =>
        let w4 := r2.takeWhile isWordChar
        if w4 = [] then none else some (w3, w4)
    | '.' :: r2 =>
        let w4 := r2.takeWhile isWordChar
        if w4 = [] then none else some (w3, w4)
    | _ => none

/-- The two optional word-dot groups and the tail, with the second group
tried present before absent, given that the first group is absent. -/
def matchBodyNoG1 (cs : List Char) :
    Option (Option String × Option String × String × String) :=
  (match matchWordDot cs with
   | some (g2, r2) =>
       match matchTail r2 with
       | some (g3, g4) =>
           some (none, some (String.mk g2), String.mk g3, String.mk g4)
       | none => none
   | none => none).orElse (fun _ =>
    match matchTail cs with
    | some (g3, g4) => some (none, none, String.mk g3, String.mk g4)
    | none => none)

/-- The two optional word-dot groups and the tail, each group tried present
before absent. -/
def matchBody (cs : List Char) :
    Option (Option String × Option String × String × String) :=
  (match matchWordDot cs with
   | some (g1, r1) =>
       ((match matchWordDot r1 with
         | some (g2, r2) =>
             match matchTail r2 with
             | some (g3, g4) =>
                 some (some (String.mk g1), some (String.mk g2),
                       String.mk g3, String.mk g4)
             | none => none
         | none => none).orElse (fun _ =>
          match matchTail r1 with
          | some (g3, g4) =>
              some (some (String.mk g1), none, String.mk g3, String.mk g4)
          | none => none))
   | none => none).orElse (fun _ => matchBodyNoG1 cs)

/-- One attempt of the full pattern at the current position: the optional
leading double quote is tried present before absent. -/
def matchAt (cs : List Char) :
    Option (Option String × Option String × String × String) :=
  match cs with
  | '"' :: cs2 => (matchBody cs2).orElse (fun _ => matchBody cs)
  | _ => matchBody cs

/-- re.search: try the pattern at each start position from the left. -/
def reSearch : List Char → Option (Option String × Option String × String × String)
  | [] => none
  | c :: cs => (matchAt (c :: cs)).orElse (fun _ => reSearch cs)

/-- The database, schema, table and column fields returned by
extract_source_info_from_transformation. -/
structure SourceInfo where
  database : Option String
  schema : Option String
  table : Option String
  column : Option String
deriving DecidableEq, Repr

/-- Python str.rstrip with a dot argument: drop every trailing dot. -/
def rstripDot (s : String) : String :=
  String.mk ((s.toList.reverse.dropWhile (fun c => c = '.')).reverse)

/-- extract_source_info_from_transformation of gen_upstream_lineage.py
(lines 12 to 43).  match.groups() always yields exactly four groups for this
pattern, so the branch of the source for three groups is unreachable and not
modeled.  A captured group is never empty, so the Python truthiness test on
parts[0] and parts[1] coincides with matching on the option. -/
def extract_source_info_from_transformation (transformation : String) :
    SourceInfo :=
  match reSearch transformation.toList with
  | some (g1, g2, g3, g4) =>
      { database := g1.map rstripDot, schema := g2.map rstripDot,
        table := some g3, column := some g4 }
  | none => { database := none, schema := none, table := none, column := none }

/-! Embedding of process_cte and process_with_and_select. -/

mutual
/-- extract_source_columns_and_transformation of gen_upstream_lineage.py
(lines 190 to 365), returning the tuple
(source_columns, transformation, source_table).  The branches for exp.Case
and exp.TimestampTrunc are outside the model (see Sx); every node kind
without a dedicated branch takes the final else. -/
def extract (node : Sx) (tam : List (String × String)) (cdefs : CteDefs)
    (ct : Option String) : List String × Sx × String :=
  match node with
  | .col n t =>
      let tn := if t ≠ "" then t else ct.getD "unknown"
      let real := (alookup tam tn).getD tn
      let node2 := Sx.col n tn
      let r := trace_column_lineage node2 real cdefs tam ct [] 0 10
      (r.1, r.2.2, r.2.1)
  | .ident n => ([n], .ident n, pyOrStr ct)
  | .boolv b => ([], .boolv b, "constant")
  | .lit s => ([], .lit s, "constant")
  | .paren i =>
      let r := extract i tam cdefs ct
      (r.1, .paren r.2.1, r.2.2)
  | .bin k l r =>
      let L := extract l tam cdefs ct
      let R := extract r tam cdefs ct
      let tables := ([L.2.2, R.2.2].filter
        (fun x => x ≠ "unknown" ∧ x ≠ "constant")).foldl insertU []
      let st := if tables ≠ [] then String.intercalate ", " tables else pyOrStr ct
      (unionU L.1 R.1, .bin k L.2.1 R.2.1, st)
  | .agg k a args d =>
      let rs := extractEachOpt a tam cdefs ct ++ extractEach args tam cdefs ct
      let cols := rs.foldl (fun acc r => unionU acc r.1) []
      let tabs := rs.foldl (fun acc r => unionU acc (r.2.2.splitOn ", ")) []
      let exprs := rs.map (fun r => r.2.1)
      let funcNode := Sx.agg k exprs.head? [] d
      let tabs2 := tabs.filter (fun x => x ≠ "unknown" ∧ x ≠ "constant")
      let st := if tabs2 ≠ [] then String.intercalate ", " tabs2 else pyOrStr ct
      (cols, funcNode, st)
  | .castE i ty =>
      let r := extract i tam cdefs ct
      (r.1, .castE r.2.1 ty, r.2.2)
  | .coalesce a args =>
      let rs := extractEachOpt a tam cdefs ct ++ extractEach args tam cdefs ct
      let cols := rs.foldl (fun acc r => unionU acc r.1) []
      let tabs := rs.foldl (fun acc r => unionU acc (r.2.2.splitOn ", ")) []
      let exprs := rs.map (fun r => r.2.1)
      let funcNode := Sx.coalesce none exprs
      let tabs2 := tabs.filter (fun x => x ≠ "unknown" ∧ x ≠ "constant")
      let st := if tabs2 ≠ [] then String.intercalate ", " tabs2 else pyOrStr ct
      (cols, funcNode, st)
  | p => ([], p, pyOrStr ct)

/-- extract mapped over a list of argument nodes, in order. -/
def extractEach (nodes : List Sx) (tam : List (String × String)) (cdefs : CteDefs)
    (ct : Option String) : List (List String × Sx × String) :=
  match nodes with
  | [] => []
  | x :: xs => extract x tam cdefs ct :: extractEach xs tam cdefs ct

/-- extract over the optional this argument; a None argument is skipped, as
the Python loop guard does. -/
def extractEachOpt (a : Option Sx) (tam : List (String × String)) (cdefs : CteDefs)
    (ct : Option String) : List (List String × Sx × String) :=
  match a with
  | none => []
  | some x => [extract x tam cdefs ct]
end

/-- One CTE of the query: cte.alias, the select expressions of the body, and
the FROM clause when it is a plain table, as (catalog, db, name) with the
empty string embedding an absent part; none embeds an absent FROM clause.
A FROM whose target is a subquery (the recursive process_cte branch) is
outside this model; no claim depends on it. -/
structure CteDef where
  name : String
  projs : List Sx
  fromTable : Option (String × String × String)
deriving Repr

/-- A parsed query whose root is exp.Select: the WITH clause in declaration
order (the empty list embeds an absent WITH clause), the outer projections
and the outer FROM table as (catalog, db, name). -/
structure Query where
  ctes : List CteDef
  projs : List Sx
  fromTable : Option (String × String × String)
deriving Repr

/-- process_cte of gen_upstream_lineage.py (lines 124 to 188) for CTE bodies
that are plain selects: compute the source table from the FROM clause,
register the CTE in table_alias_map, then record one ColInfo per projection
of the body in cte_definitions. -/
def process_cte (c : CteDef) (tam : List (String × String)) (cdefs : CteDefs) :
    List (String × String) × CteDefs :=
  let st0 : String × List (String × String) :=
    match c.fromTable with
    | some (cat, db, nm) =>
        let s1 := nm
        let s2 := if db ≠ "" then db ++ "." ++ s1 else s1
        let s3 := if cat ≠ "" then cat ++ "." ++ s2 else s2
        (s3, ainsert tam c.name c.name)
    | none => ("unknown", ainsert tam c.name c.name)
  let sourceTable := st0.1
  let tam2 := st0.2
  let cteCols := c.projs.foldl
    (fun (acc : List (String × ColInfo)) se =>
      match se with
      | .star => ainsert acc "*" ⟨["*"], se, sourceTable⟩
      | .aliasE inner a =>
          let r := extract inner tam2 cdefs (some sourceTable)
          ainsert acc a ⟨r.1, r.2.1, r.2.2⟩
      | .col n _ => ainsert acc n ⟨[n], se, sourceTable⟩
      | _ =>
          let r := extract se tam2 cdefs (some sourceTable)
          let an := aliasOrName se
          if an ≠ "" then ainsert acc an ⟨r.1, r.2.1, r.2.2⟩ else acc)
    []
  (tam2, ainsert cdefs c.name cteCols)

/-- Python exception kinds relevant to the tracer. -/
inductive PyExc where
  | nameError
deriving DecidableEq, Repr

/-- The function extract_source_info is called at lines 402 and 438 of
gen_upstream_lineage.py but is defined nowhere in the program; only
extract_source_info_from_transformation (line 12) exists.  In Python the
call therefore raises NameError, embedded as the always-raising
computation. -/
def extract_source_info (_sourceTable : String) : Except PyExc SourceInfo :=
  .error .nameError

/-- One emitted lineage row, with the Final Column, Source Database, Source
Schema, Source Table, Source Columns and Transformation fields.  Every row
the source can actually append holds plain strings in all fields: the only
dict literals with possibly-None values sit after the raising
extract_source_info call and are dead code. -/
structure LineageRow where
  finalColumn : String
  sourceDatabase : String
  sourceSchema : String
  sourceTable : String
  sourceColumns : String
  transformation : String
deriving DecidableEq, Repr

/-- Python x or y for an optional string x: None and the empty string both
fall back to y. -/
def pyOrD (o : Option String) (d : String) : String :=
  match o with
  | none => d
  | some s => if s = "" then d else s

/-- Body of the try block of the Star branch of process_with_and_select
(lines 397 to 410), for one column of the CTE the outer FROM names: trace
the column, serialize the transformation, then call the undefined
extract_source_info, which raises.  The row construction after that call is
dead code; absent values there are embedded as the empty string. -/
def starColBody (cdefs : CteDefs) (tam : List (String × String))
    (mainTable : String) (curTable : String) (col : String) :
    Except PyExc LineageRow := do
  let r := trace_column_lineage (Sx.col col "") mainTable cdefs tam (some curTable) [] 0 10
  let transformationSql := sxSql r.2.2
  let actualColumnName := String.intercalate ", " r.1
  let info ← extract_source_info r.2.1
  pure { finalColumn := col,
         sourceDatabase := (info.database).getD "",
         sourceSchema := (info.schema).getD "",
         sourceTable := (info.table).getD "",
         sourceColumns := actualColumnName,
         transformation := transformationSql }

/-- Body of the try block of the Alias branch of process_with_and_select
(lines 432 to 446): extract on the aliased expression, then the undefined
extract_source_info raises.  The row construction after it is dead code. -/
def aliasBody (cdefs : CteDefs) (tam : List (String × String))
    (curTable : String) (inner : Sx) (aliasName : String) :
    Except PyExc LineageRow := do
  let r := extract inner tam cdefs (some curTable)
  let transformationSql := sxSql r.2.1
  let actualColumnName := String.intercalate ", " r.1
  let info ← extract_source_info r.2.2
  pure { finalColumn := aliasName,
         sourceDatabase := (info.database).getD "",
         sourceSchema := (info.schema).getD "",
         sourceTable := (info.table).getD "",
         sourceColumns := actualColumnName,
         transformation := transformationSql }

/-- Body of the try block of the Column branch of process_with_and_select
(lines 458 to 478).  The isinstance tests for exp.Alias inside this branch
are dead, because the preceding Alias branch already captured those nodes,
so the branch runs for exp.Column projections only.  It uses the defined
extract_source_info_from_transformation and never raises. -/
def columnBody (cdefs : CteDefs) (tam : List (String × String))
    (curTable : String) (p : Sx) : Except PyExc LineageRow := do
  let r := extract p tam cdefs (some curTable)
  let transformationSql := sxSql r.2.1
  let actualColumnName := String.intercalate ", " r.1
  let info := extract_source_info_from_transformation transformationSql
  pure { finalColumn := sxName p,
         sourceDatabase := pyOrD info.database "Unknown",
         sourceSchema := pyOrD info.schema "Unknown",
         sourceTable := pyOrD info.table r.2.2,
         sourceColumns := pyOrD info.column actualColumnName,
         transformation := transformationSql }

/-- The placeholder row appended by the except branches of
process_with_and_select. -/
def errRow (finalCol : String) (msg : String) : LineageRow :=
  { finalColumn := finalCol, sourceDatabase := "Unknown",
    sourceSchema := "Unknown", sourceTable := "Unknown",
    sourceColumns := "Unknown", transformation := msg }

/-- The per-projection dispatch of process_with_and_select (lines 393 to
488).  Star, Alias and Column projections emit rows; the try/except of the
source is the match on the Except value.  A projection of any other shape
matches no branch of the if/elif chain and emits nothing. -/
def processProjection (cdefs : CteDefs) (tam : List (String × String))
    (mainTable : String) (curTable : String) (p : Sx) : List LineageRow :=
  match p with
  | .star =>
      match alookup cdefs mainTable with
      | some entries =>
          entries.map (fun e =>
            match starColBody cdefs tam mainTable curTable e.1 with
            | .ok r => [r]
            | .error _ => [errRow e.1 "Error tracing column"]) |>.flatten
      | none =>
          [{ finalColumn := "*", sourceDatabase := "Unknown",
             sourceSchema := "Unknown", sourceTable := mainTable,
             sourceColumns := "Select all columns",
             transformation := "Select all columns" }]
  | .aliasE inner a =>
      match aliasBody cdefs tam curTable inner a with
      | .ok r => [r]
      | .error _ => [errRow a "Error tracing alias"]
  | .col n t =>
      match columnBody cdefs tam curTable (Sx.col n t) with
      | .ok r => [r]
      | .error _ => [errRow n "Error tracing expression"]
  | _ => []

/-- process_with_and_select of gen_upstream_lineage.py (lines 367 to 490):
process the CTEs of the WITH clause in declaration order, resolve the main
table from the outer FROM clause, then emit lineage rows projection by
projection, in projection order. -/
def process_with_and_select (q : Query) : List LineageRow :=
  let s0 := q.ctes.foldl
    (fun (s : List (String × String) × CteDefs) c => process_cte c s.1 s.2)
    ([], [])
  let tam := s0.1
  let cdefs := s0.2
  let m : String × List (String × String) :=
    match q.fromTable with
    | some (_, _, nm) => (nm, ainsert tam nm nm)
    | none => ("unknown", tam)
  let mainTable := m.1
  let tam2 := m.2
  (q.projs.map (processProjection cdefs tam2 mainTable mainTable)).flatten

/-! Embedding of expand_sql_ref.py, the star expander. -/

/-- One exp.Table of the expander as its catalog, db and this name parts;
none embeds an absent arg. -/
structure ETable where
  catalog : Option String
  db : Option String
  name : Option String
deriving DecidableEq, Repr

/-- get_fully_qualified_name (lines 57 to 65): join the parts present with
dots. -/
def get_fully_qualified_name (t : ETable) : String :=
  String.intercalate "." (t.catalog.toList ++ t.db.toList ++ t.name.toList)

/-- One projection of the expander: exp.Star, exp.Column (name plus optional
table qualifier), exp.Alias (carrying its alias_or_name), an exp.Identifier
as produced by expansion, or any other expression carrying its alias text
and surface sql text (the two fallbacks used when recording scope
columns). -/
inductive EProj where
  | star
  | column (name : String) (table : Option String)
  | aliasP (aliasName : String)
  | identP (name : String)
  | otherP (aliasName : String) (sqlText : String)
deriving DecidableEq, Repr

/-- The FROM clause of a CTE body: absent, present but containing no
exp.Table anywhere (from_expr.find returns None), or the first exp.Table
found. -/
inductive EFrom where
  | absent
  | noTable
  | table (t : ETable)
deriving DecidableEq, Repr

/-- One CTE of the expander. -/
structure ECte where
  name : String
  projs : List EProj
  fromc : EFrom
deriving DecidableEq, Repr

/-- A parsed query for the expander, rooted at exp.Select: the WITH clause in
declaration order (empty embeds an absent clause) and the outer select
list. -/
structure EQuery where
  ctes : List ECte
  projs : List EProj
deriving DecidableEq, Repr

/-- find_outer_select (lines 93 to 107) does a depth-first traversal that
tests the node itself before descending into its args.  A query with a WITH
clause parses to an exp.Select whose args contain the With node, so the root
is the first Select reached, and it is exactly the outermost select, the one
not contained in any CTE body.  The search is therefore embedded as
returning the root. -/
def find_outer_select (q : EQuery) : EQuery := q

/-- The exceptions generate_expanded_sql raises: the ValueError for a missing
WITH clause, the ValueError for a CTE without a FROM clause, the
NotImplementedError for a FROM without any table, and the ValueError for a
source resolvable neither in the schema nor in earlier CTEs.  The ValueError
for a missing final select is unreachable here because the root is a
Select. -/
inductive EErr where
  | noWithClause
  | noFromClause (cte : String)
  | unsupportedFrom (cte : String)
  | unknownSource (source : String)
deriving DecidableEq, Repr

/-- The per-projection rewriting of replace_star_in_select (lines 68 to 91):
a bare star expands to the current source columns as identifiers; a column
projection carrying a table qualifier whose name is the star text expands
through the recorded scope of that CTE when known and stays verbatim
otherwise; every other projection is kept. -/
def replaceStarProj (cur : List String) (cteCols : List (String × List String)) :
    EProj → List EProj
  | .star => cur.map EProj.identP
  | .column n (some t) =>
      if n = "*" then
        match alookup cteCols t with
        | some cl => cl.map (fun c => EProj.column c (some t))
        | none => [.column n (some t)]
      else [.column n (some t)]
  | p => [p]

/-- replace_star_in_select over a whole select list. -/
def replace_star_in_select (projs : List EProj) (cur : List String)
    (cteCols : List (String × List String)) : List EProj :=
  (projs.map (replaceStarProj cur cteCols)).flatten

/-- The output column recorded for one post-expansion projection (lines 143
to 153): the alias_or_name for alias projections, the name for columns, and
otherwise the alias if nonempty, else the surface text (for exp.Star that
text is the star, for an identifier its name). -/
def projOutName : EProj → String
  | .aliasP a => a
  | .column n _ => n
  | .star => "*"
  | .identP n => n
  | .otherP a s => if a ≠ "" then a else s

/-- The per-CTE loop of generate_expanded_sql (lines 115 to 156): resolve the
FROM target first against the schema, then against the scopes of earlier
CTEs; on failure the whole call raises.  On success, expand stars in the
body and record the scope of this CTE. -/
def processECtes (schema : List (String × List String)) :
    List ECte → List (String × List String) →
      Except EErr (List ECte × List (String × List String))
  | [], scopes => .ok ([], scopes)
  | c :: rest, scopes =>
      match c.fromc with
      | .absent => .error (.noFromClause c.name)
      | .noTable => .error (.unsupportedFrom c.name)
      | .table t =>
          let sourceFull := get_fully_qualified_name t
          let srcCols? : Option (List String) :=
            match alookup schema sourceFull with
            | some cl => some cl
            | none => alookup scopes sourceFull
          match srcCols? with
          | none => .error (.unknownSource sourceFull)
          | some srcCols =>
              let projs2 := replace_star_in_select c.projs srcCols scopes
              let newCols := projs2.map projOutName
              match processECtes schema rest (ainsert scopes c.name newCols) with
              | .ok (cs, scs) => .ok ({ c with projs := projs2 } :: cs, scs)
              | .error e => .error e

/-- generate_expanded_sql of expand_sql_ref.py (lines 46 to 172) up to and
excluding the final serialization: the rewritten tree together with the
recorded CTE scopes.  The last declared CTE is the last key of cte_columns;
after a successful CTE loop over a nonempty WITH clause the scope list is
nonempty, so the embedded default of getLastD is unreachable. -/
def expandCore (schema : List (String × List String)) (q : EQuery) :
    Except EErr (EQuery × List (String × List String)) :=
  if q.ctes = [] then .error .noWithClause
  else
    match processECtes schema q.ctes [] with
    | .error e => .error e
    | .ok (ctes2, scopes) =>
        let fs := find_outer_select q
        let lastCteName := (scopes.map Prod.fst).getLastD ""
        let finalCols := (alookup scopes lastCteName).getD []
        .ok ({ ctes := ctes2,
               projs := replace_star_in_select fs.projs finalCols scopes },
             scopes)

/-- Character-wise upper-casing of a string, the embedding of the Python
str.upper() call on the serialized SQL for the ASCII identifiers modeled
here. -/
def upperStr (s : String) : String :=
  String.mk (s.toList.map Char.toUpper)

/-- Upper-casing of every identifier: the embedding of feeding the output of
sql(pretty=True).upper() (line 171) back through the parser.  For the plain
unquoted identifiers modeled here, parsing the upper-cased serialization
yields the same tree with every name upper-cased. -/
def upperEProj : EProj → EProj
  | .star => .star
  | .column n t => .column (upperStr n) (t.map upperStr)
  | .aliasP a => .aliasP (upperStr a)
  | .identP n => .identP (upperStr n)
  | .otherP a s => .otherP (upperStr a) (upperStr s)

/-- upperEProj lifted to tables. -/
def upperETable (t : ETable) : ETable :=
  { catalog := t.catalog.map upperStr, db := t.db.map upperStr,
    name := t.name.map upperStr }

/-- upperEProj lifted to CTEs. -/
def upperECte (c : ECte) : ECte :=
  { name := upperStr c.name, projs := c.projs.map upperEProj,
    fromc := match c.fromc with
             | .table t => .table (upperETable t)
             | f => f }

/-- upperEProj lifted to queries. -/
def upperEQuery (q : EQuery) : EQuery :=
  { ctes := q.ctes.map upperECte, projs := q.projs.map upperEProj }

/-- generate_expanded_sql including the final upper-cased serialization, as
seen by a consumer that parses the returned SQL text again. -/
def generate_expanded_sql (schema : List (String × List String)) (q : EQuery) :
    Except EErr EQuery :=
  match expandCore schema q with
  | .ok (q2, _) => .ok (upperEQuery q2)
  | .error e => .error e

/-- One TABLE_SCHEMA_REF record fetched by the main loop of
expand_sql_ref.py: the unique key, the parsed SQL and the decoded reference
schema. -/
structure ERecord where
  uniqueKey : String
  q : EQuery
  schema : List (String × List String)

/-- The record loop of main (lines 183 to 195): on success the expanded SQL
is written back under the unique key; on any exception the record is skipped
with a printed diagnostic (returned here as the list of failed keys) and the
loop continues with the remaining records. -/
def expandRecords : List ERecord → List (String × EQuery) × List String
  | [] => ([], [])
  | r :: rest =>
      let tail := expandRecords rest
      match generate_expanded_sql r.schema r.q with
      | .ok q2 => ((r.uniqueKey, q2) :: tail.1, tail.2)
      | .error _ => (tail.1, r.uniqueKey :: tail.2)

/-! Embedding of replace_refs_and_sources_in_sql of
create_manifest_catalog_ref.py (lines 182 to 221).  The two re.sub passes
are embedded as left-to-right scanners over the character list that try the
pattern at every position, emit the replacement or the original text, and
never rescan replacement text, exactly as re.sub proceeds. -/

/-- Expect the literal character sequence p at the head of the input and
return the rest. -/
def expectChars : List Char → List Char → Option (List Char)
  | [], cs => some cs
  | p :: ps, c :: cs => if c = p then expectChars ps cs else none
  | _ :: _, [] => none

/-- Match the ref placeholder pattern at the head of the input: two opening
braces, whitespace, the literal ref text with opening parenthesis and quote,
a nonempty run of characters other than the quote, the closing quote and
parenthesis, whitespace, and two closing braces.  Returns the captured name
and the rest. -/
def matchRefAt (cs0 : List Char) : Option (String × List Char) :=
  match expectChars ['\x7b', '\x7b'] cs0 with
  | none => none
  | some cs1 =>
    let cs2 := cs1.dropWhile Char.isWhitespace
    match expectChars ("ref(".toList ++ ['\x27']) cs2 with
    | none => none
    | some cs3 =>
      let nm := cs3.takeWhile (fun c => c ≠ '\x27')
      let cs4 := cs3.dropWhile (fun c => c ≠ '\x27')
      if nm = [] then none
      else
        match expectChars ['\x27', ')'] cs4 with
        | none => none
        | some cs5 =>
          let cs6 := cs5.dropWhile Char.isWhitespace
          match expectChars ['\x7d', '\x7d'] cs6 with
          | none => none
          | some cs7 => some (String.mk nm, cs7)

/-- Match the source placeholder pattern at the head of the input: like the
ref pattern but with the literal source text and two quoted groups separated
by a comma with optional whitespace around it. -/
def matchSourceAt (cs0 : List Char) : Option (String × String × List Char) :=
  match expectChars ['\x7b', '\x7b'] cs0 with
  | none => none
  | some cs1 =>
    let cs2 := cs1.dropWhile Char.isWhitespace
    match expectChars ("source(".toList ++ ['\x27']) cs2 with
    | none => none
    | some cs3 =>
      let g1 := cs3.takeWhile (fun c => c ≠ '\x27')
      let cs4 := cs3.dropWhile (fun c => c ≠ '\x27')
      if g1 = [] then none
      else
        match expectChars ['\x27'] cs4 with
        | none => none
        | some cs5 =>
          let cs6 := cs5.dropWhile Char.isWhitespace
          match expectChars [','] cs6 with
          | none => none
          | some cs7 =>
            let cs8 := cs7.dropWhile Char.isWhitespace
            match expectChars ['\x27'] cs8 with
            | none => none
            | some cs9 =>
              let g2 := cs9.takeWhile (fun c => c ≠ '\x27')
              let cs10 := cs9.dropWhile (fun c => c ≠ '\x27')
              if g2 = [] then none
              else
                match expectChars ['\x27', ')'] cs10 with
                | none => none
                | some cs11 =>
                  let cs12 := cs11.dropWhile Char.isWhitespace
                  match expectChars ['\x7d', '\x7d'] cs12 with
                  | none => none
                  | some cs13 => some (String.mk g1, String.mk g2, cs13)

/-- Splitting a character list on one separator character, with the
accumulator holding the current segment reversed. -/
def splitDotAux (sep : Char) : List Char → List Char → List (List Char)
  | [], acc => [acc.reverse]
  | c :: cs, acc =>
      if c = sep then acc.reverse :: splitDotAux sep cs []
      else splitDotAux sep cs (c :: acc)

/-- Python full_name.split with a dot argument: the segments between dots,
with empty segments kept (the empty string splits to one empty segment). -/
def pySplitDot (s : String) : List String :=
  (splitDotAux '.' s.toList []).map String.mk

/-- The ref_replacer callback (lines 193 to 199): the full name of the first
reference entry whose trailing dot-separated segment equals the ref name; no
entry means no replacement. -/
def refLookup (refData : List (String × List String)) (refTable : String) :
    Option String :=
  (refData.find? (fun kv => (pySplitDot kv.1).getLastD "" == refTable)).map
    Prod.fst

/-- The source_replacer callback (lines 202 to 213): the full name of the
first reference entry that splits into exactly three dot-separated parts and
whose third part equals the source table name; entries of any other shape
are skipped. -/
def sourceLookup (refData : List (String × List String)) (tableName : String) :
    Option String :=
  (refData.find? (fun kv =>
    let parts := pySplitDot kv.1
    parts.length == 3 && parts.getLastD "" == tableName)).map Prod.fst

/-- Length bookkeeping for the scanners. -/
theorem dropWhile_length_le (p : Char → Bool) (l : List Char) :
    (l.dropWhile p).length ≤ l.length := by
  induction l with
  | nil => simp
  | cons a l ih =>
    by_cases h : p a
    · simp [List.dropWhile, h]; omega
    · simp [List.dropWhile, h]

/-- Length bookkeeping for expectChars. -/
theorem expectChars_length {ps cs r : List Char}
    (h : expectChars ps cs = some r) : r.length + ps.length = cs.length := by
  induction ps generalizing cs with
  | nil => simp [expectChars] at h; simp [h]
  | cons p ps ih =>
    cases cs with
    | nil => simp [expectChars] at h
    | cons c cs =>
      by_cases hc : c = p
      · simp [expectChars, hc] at h
        have := ih h
        simp [List.length_cons]
        omega
      · simp [expectChars, hc] at h

/-- A successful ref match consumes at least one character. -/
theorem matchRefAt_length {cs : List Char} {nm : String} {rest : List Char}
    (h : matchRefAt cs = some (nm, rest)) : rest.length < cs.length := by
  unfold matchRefAt at h
  cases h1 : expectChars ['\x7b', '\x7b'] cs with
  | none => rw [h1] at h; exact absurd h (by simp)
  | some cs1 =>
    rw [h1] at h
    simp only at h
    cases h2 : expectChars ("ref(".toList ++ ['\x27']) (cs1.dropWhile Char.isWhitespace) with
    | none => rw [h2] at h; exact absurd h (by simp)
    | some cs3 =>
      rw [h2] at h
      simp only at h
      by_cases hnm : cs3.takeWhile (fun c => c ≠ '\x27') = []
      · rw [if_pos hnm] at h; exact absurd h (by simp)
      · rw [if_neg hnm] at h
        cases h3 : expectChars ['\x27', ')'] (cs3.dropWhile (fun c => c ≠ '\x27')) with
        | none => rw [h3] at h; exact absurd h (by simp)
        | some cs5 =>
          rw [h3] at h
          simp only at h
          cases h4 : expectChars ['\x7d', '\x7d'] (cs5.dropWhile Char.isWhitespace) with
          | none => rw [h4] at h; exact absurd h (by simp)
          | some cs7 =>
            rw [h4] at h
            simp only [Option.some.injEq, Prod.mk.injEq] at h
            have e1 := expectChars_length h1
            have e2 := expectChars_length h2
            have e3 := expectChars_length h3
            have e4 := expectChars_length h4
            have d1 : (cs1.dropWhile Char.isWhitespace).length ≤ cs1.length :=
              dropWhile_length_le Char.isWhitespace cs1
            have d2 : (cs3.dropWhile (fun c => c ≠ '\x27')).length ≤ cs3.length :=
              dropWhile_length_le _ cs3
            have d3 : (cs5.dropWhile Char.isWhitespace).length ≤ cs5.length :=
              dropWhile_length_le Char.isWhitespace cs5
            have : rest = cs7 := h.2.symm ▸ rfl
            subst this
            simp at e2
            omega

/-- A successful source match consumes at least one character. -/
theorem matchSourceAt_length {cs : List Char} {g1 g2 : String} {rest : List Char}
    (h : matchSourceAt cs = some (g1, g2, rest)) : rest.length < cs.length := by
  unfold matchSourceAt at h
  cases h1 : expectChars ['\x7b', '\x7b'] cs with
  | none => rw [h1] at h; exact absurd h (by simp)
  | some cs1 =>
    rw [h1] at h
    simp only at h
    cases h2 : expectChars ("source(".toList ++ ['\x27']) (cs1.dropWhile Char.isWhitespace) with
    | none => rw [h2] at h; exact absurd h (by simp)
    | some cs3 =>
      rw [h2] at h
      simp only at h
      by_cases hg1 : cs3.takeWhile (fun c => c ≠ '\x27') = []
      · rw [if_pos hg1] at h; exact absurd h (by simp)
      · rw [if_neg hg1] at h
        cases h3 : expectChars ['\x27'] (cs3.dropWhile (fun c => c ≠ '\x27')) with
        | none => rw [h3] at h; exact absurd h (by simp)
        | some cs5 =>
          rw [h3] at h
          simp only at h
          cases h4 : expectChars [','] (cs5.dropWhile Char.isWhitespace) with
          | none => rw [h4] at h; exact absurd h (by simp)
          | some cs7 =>
            rw [h4] at h
            simp only at h
            cases h5 : expectChars ['\x27'] (cs7.dropWhile Char.isWhitespace) with
            | none => rw [h5] at h; exact absurd h (by simp)
            | some cs9 =>
              rw [h5] at h
              simp only at h
              by_cases hg2 : cs9.takeWhile (fun c => c ≠ '\x27') = []
              · rw [if_pos hg2] at h; exact absurd h (by simp)
              · rw [if_neg hg2] at h
                cases h6 : expectChars ['\x27', ')'] (cs9.dropWhile (fun c => c ≠ '\x27')) with
                | none => rw [h6] at h; exact absurd h (by simp)
                | some cs11 =>
                  rw [h6] at h
                  simp only at h
                  cases h7 : expectChars ['\x7d', '\x7d'] (cs11.dropWhile Char.isWhitespace) with
                  | none => rw [h7] at h; exact absurd h (by simp)
                  | some cs13 =>
                    rw [h7] at h
                    simp only [Option.some.injEq, Prod.mk.injEq] at h
                    have e1 := expectChars_length h1
                    have e2 := expectChars_length h2
                    have e3 := expectChars_length h3
                    have e4 := expectChars_length h4
                    have e5 := expectChars_length h5
                    have e6 := expectChars_length h6
                    have e7 := expectChars_length h7
                    have d1 : (cs1.dropWhile Char.isWhitespace).length ≤ cs1.length :=
                      dropWhile_length_le Char.isWhitespace cs1
                    have d2 : (cs3.dropWhile (fun c => c ≠ '\x27')).length ≤ cs3.length :=
                      dropWhile_length_le _ cs3
                    have d3 : (cs5.dropWhile Char.isWhitespace).length ≤ cs5.length :=
                      dropWhile_length_le Char.isWhitespace cs5
                    have d4 : (cs7.dropWhile Char.isWhitespace).length ≤ cs7.length :=
                      dropWhile_length_le Char.isWhitespace cs7
                    have d5 : (cs9.dropWhile (fun c => c ≠ '\x27')).length ≤ cs9.length :=
                      dropWhile_length_le _ cs9
                    have d6 : (cs11.dropWhile Char.isWhitespace).length ≤ cs11.length :=
                      dropWhile_length_le Char.isWhitespace cs11
                    have : rest = cs13 := h.2.2.symm ▸ rfl
                    subst this
                    simp at e2
                    omega

/-- The re.sub pass for ref placeholders: scan left to right; at a match
emit the replacement (or the whole matched text verbatim when the lookup
fails) and continue after the match, otherwise emit one character and move
on. -/
def subRef (refData : List (String × List String)) (cs : List Char) :
    List Char :=
  match cs with
  | [] => []
  | c :: cs2 =>
      match h : matchRefAt (c :: cs2) with
      | some (nm, rest) =>
          have : rest.length < cs2.length + 1 := by
            have := matchRefAt_length h; simpa using this
          (match refLookup refData nm with
           | some full => full.toList
           | none => (c :: cs2).take ((c :: cs2).length - rest.length))
            ++ subRef refData rest
      | none => c :: subRef refData cs2
termination_by cs.length
decreasing_by
  · simpa using this
  · simp

/-- The re.sub pass for source placeholders. -/
def subSource (refData : List (String × List String)) (cs : List Char) :
    List Char :=
  match cs with
  | [] => []
  | c :: cs2 =>
      match h : matchSourceAt (c :: cs2) with
      | some (_g1, g2, rest) =>
          have : rest.length < cs2.length + 1 := by
            have := matchSourceAt_length h; simpa using this
          (match sourceLookup refData g2 with
           | some full => full.toList
           | none => (c :: cs2).take ((c :: cs2).length - rest.length))
            ++ subSource refData rest
      | none => c :: subSource refData cs2
termination_by cs.length
decreasing_by
  · simpa using this
  · simp

/-- replace_refs_and_sources_in_sql (lines 182 to 221): the ref substitution
pass followed by the source substitution pass.  The reference JSON is taken
already decoded as an association list in document order (json.loads
preserves it); the branch for undecodable JSON returns the SQL unchanged and
is outside this model. -/
def replace_refs_and_sources_in_sql (sql : String)
    (refData : List (String × List String)) : String :=
  String.mk (subSource refData (subRef refData sql.toList))

/-- The shape of one ref placeholder token in the character list: two opening
braces, whitespace, the ref literal with opening parenthesis and quote, the
name, the closing quote and parenthesis, whitespace, two closing braces. -/
def refTokenL (ws1 nm ws2 : List Char) : List Char :=
  '\x7b' :: '\x7b' :: (ws1 ++ ("ref(".toList
    ++ '\x27' :: (nm ++ '\x27' :: ')' :: (ws2 ++ ['\x7d', '\x7d']))))

/-- The shape of one source placeholder token: like the ref token, with two
quoted groups separated by a comma with whitespace around it. -/
def sourceTokenL (ws1 src wsA wsB nm ws2 : List Char) : List Char :=
  '\x7b' :: '\x7b' :: (ws1 ++ ("source(".toList
    ++ '\x27' :: (src ++ '\x27' :: (wsA ++ ',' :: (wsB
    ++ '\x27' :: (nm ++ '\x27' :: ')' :: (ws2 ++ ['\x7d', '\x7d'])))))))

/-! Theorems.  Claims C1 to C10 of the specification are settled below; each
claim has exactly one theorem, with witnesses for those with hypotheses and
counterexamples where the claim fails on the code. -/

mutual
/-- The instrumented depth of a replace pass is bounded by any bound on its
trace callback. -/
theorem replaceColumnsF_bound (tr : String → Sx → Sx × Nat) (st : String)
    (B : Nat) (h : ∀ tbl c, (tr tbl c).2 ≤ B) :
    (x : Sx) → (replaceColumnsF tr st x).2 ≤ B
  | .col n t => by simpa [replaceColumnsF] using h _ _
  | .ident n => by simp [replaceColumnsF]
  | .lit s => by simp [replaceColumnsF]
  | .boolv b => by simp [replaceColumnsF]
  | .star => by simp [replaceColumnsF]
  | .aliasE i a => by
      have hi := replaceColumnsF_bound tr st B h i
      simpa [replaceColumnsF] using hi
  | .paren i => by
      have hi := replaceColumnsF_bound tr st B h i
      simpa [replaceColumnsF] using hi
  | .bin k l r => by
      have hl := replaceColumnsF_bound tr st B h l
      have hr := replaceColumnsF_bound tr st B h r
      simp only [replaceColumnsF]
      exact Nat.max_le.mpr ⟨hl, hr⟩
  | .agg k a args d => by
      have ha := replaceOptF_bound tr st B h a
      have hl := replaceListF_bound tr st B h args
      simp only [replaceColumnsF]
      exact Nat.max_le.mpr ⟨ha, hl⟩
  | .distinctE args => by
      have hl := replaceListF_bound tr st B h args
      simpa [replaceColumnsF] using hl
  | .castE i ty => by
      have hi := replaceColumnsF_bound tr st B h i
      simpa [replaceColumnsF] using hi
  | .coalesce a args => by
      have ha := replaceOptF_bound tr st B h a
      have hl := replaceListF_bound tr st B h args
      simp only [replaceColumnsF]
      exact Nat.max_le.mpr ⟨ha, hl⟩
  | .other tag kids => by
      have hl := replaceListF_bound tr st B h kids
      simpa [replaceColumnsF] using hl

/-- Bound for the optional-argument pass. -/
theorem replaceOptF_bound (tr : String → Sx → Sx × Nat) (st : String)
    (B : Nat) (h : ∀ tbl c, (tr tbl c).2 ≤ B) :
    (a : Option Sx) → (replaceOptF tr st a).2 ≤ B
  | none => by simp [replaceOptF]
  | some x => by
      have hx := replaceColumnsF_bound tr st B h x
      simpa [replaceOptF] using hx

/-- Bound for the list-argument pass. -/
theorem replaceListF_bound (tr : String → Sx → Sx × Nat) (st : String)
    (B : Nat) (h : ∀ tbl c, (tr tbl c).2 ≤ B) :
    (l : List Sx) → (replaceListF tr st l).2 ≤ B
  | [] => by simp [replaceListF]
  | x :: xs => by
      have hx := replaceColumnsF_bound tr st B h x
      have hxs := replaceListF_bound tr st B h xs
      simp only [replaceListF]
      exact Nat.max_le.mpr ⟨hx, hxs⟩
end

/-- The maximal depth reached by traceFuel is bounded by the starting depth
plus the fuel. -/
theorem traceFuel_bound (cdefs : CteDefs) (tam : List (String × String))
    (ct : Option String) :
    ∀ (g : Nat) (colNode : Sx) (table : String)
      (visited : List (String × String)) (depth : Nat),
      (traceFuel cdefs tam ct g colNode table visited depth).2 ≤ depth + g := by
  intro g
  induction g with
  | zero => intro colNode table visited depth; simp [traceFuel]
  | succ g ih =>
    intro colNode table visited depth
    unfold traceFuel
    split
    · simp
    · split
      · simp
      · rename_i cteInfo hcte
        split
        · simp
        · rename_i hit sc st ctr hhit
          split
          · simp
          · have hfold : ∀ (l : List String)
                (acc : List String × List String × Nat),
                acc.2.2 ≤ depth + (g + 1) →
                (l.foldl (fun (acc : List String × List String × Nat) srcCol =>
                  let r := traceFuel cdefs tam ct g (Sx.col srcCol st) st
                    ((table, sxSql colNode) :: visited) (depth+1)
                  (unionU acc.1 r.1.1, insertU acc.2.1 r.1.2.1,
                    Nat.max acc.2.2 r.2)) acc).2.2 ≤ depth + (g + 1) := by
              intro l
              induction l with
              | nil => intro acc hacc; simpa using hacc
              | cons a l ihl =>
                intro acc hacc
                simp only [List.foldl_cons]
                apply ihl
                have hr := ih (Sx.col a st) st ((table, sxSql colNode) :: visited) (depth+1)
                simp only
                refine Nat.max_le.mpr ⟨hacc, by omega⟩
            refine Nat.max_le.mpr ⟨by omega, Nat.max_le.mpr ⟨?_, ?_⟩⟩
            · refine replaceColumnsF_bound _ st (depth + (g+1)) ?_ ctr
              intro tbl c
              have h2 := ih c tbl ((table, sxSql colNode) :: visited) (depth+1)
              have h3 : (traceFuel cdefs tam ct g c tbl
                  ((table, sxSql colNode) :: visited) (depth + 1)).2
                    ≤ depth + (g+1) := by omega
              simpa using h3
            · exact hfold sc ([], [], 0) (by simp)

/-- C1: trace_column_lineage terminates on every input.  Revisiting a key
(table, column_node.sql()) already in the visit set returns the singleton of
the column name together with the table and the node, without further
recursion; a call whose depth has reached max_depth returns the same value;
and the depth argument over the whole recursive call tree never exceeds
max depth maxDepth, so with the default arguments depth 0 and max_depth 10
no call chain exceeds depth 10. -/
theorem trace_column_lineage_terminates
    (colNode : Sx) (table : String) (cdefs : CteDefs)
    (tam : List (String × String)) (ct : Option String)
    (visited : List (String × String)) (depth maxDepth : Nat) :
    ((table, sxSql colNode) ∈ visited →
      trace_column_lineage colNode table cdefs tam ct visited depth maxDepth
        = ([sxName colNode], table, colNode))
    ∧ (maxDepth ≤ depth →
      trace_column_lineage colNode table cdefs tam ct visited depth maxDepth
        = ([sxName colNode], table, colNode))
    ∧ traceMaxDepthReached colNode table cdefs tam ct visited depth maxDepth
        ≤ Nat.max depth maxDepth := by
  refine ⟨?_, ?_, ?_⟩
  · intro hv
    unfold trace_column_lineage
    cases hg : maxDepth - depth with
    | zero => simp [traceFuel]
    | succ g => simp [traceFuel, hv]
  · intro hd
    unfold trace_column_lineage
    have hg : maxDepth - depth = 0 := by omega
    rw [hg]
    simp [traceFuel]
  · unfold traceMaxDepthReached
    have h1 := traceFuel_bound cdefs tam ct (maxDepth - depth) colNode table visited depth
    have h2 : depth + (maxDepth - depth) ≤ Nat.max depth maxDepth := by
      rcases Nat.le_total depth maxDepth with h | h
      · have e : depth + (maxDepth - depth) = maxDepth := by omega
        rw [e]; exact Nat.le_max_right _ _
      · have e : depth + (maxDepth - depth) = depth := by omega
        rw [e]; exact Nat.le_max_left _ _
    exact le_trans h1 h2

/-- Witness for C1 at concrete inputs: a revisited key, a call at depth 12
past the cap 10, and the depth bound for the default call. -/
theorem trace_column_lineage_terminates_witness :
    (("t", sxSql (Sx.col "c" "")) ∈ [("t", "c")]
      ∧ trace_column_lineage (Sx.col "c" "") "t" [] [] none [("t", "c")] 3 10
          = (["c"], "t", Sx.col "c" ""))
    ∧ ((10 : Nat) ≤ 12
      ∧ trace_column_lineage (Sx.col "c" "") "t" [] [] none [] 12 10
          = (["c"], "t", Sx.col "c" ""))
    ∧ traceMaxDepthReached (Sx.col "c" "") "t" [] [] none [] 0 10
        ≤ Nat.max 0 10 := by
  have hmem : ("t", sxSql (Sx.col "c" "")) ∈ [("t", "c")] := by
    simp [sxSql]
  refine ⟨⟨hmem, ?_⟩, ⟨by omega, ?_⟩, ?_⟩
  · exact (trace_column_lineage_terminates (Sx.col "c" "") "t" [] [] none
      [("t", "c")] 3 10).1 hmem
  · exact (trace_column_lineage_terminates (Sx.col "c" "") "t" [] [] none
      [] 12 10).2.1 (by omega)
  · exact (trace_column_lineage_terminates (Sx.col "c" "") "t" [] [] none
      [] 0 10).2.2

/-- C2: tracing failures are confined to one projection.  Splitting the outer
select list around any projection splits the emitted rows accordingly, so no
exception raised while tracing one projection aborts the query; and in each
tracing branch a raised exception is caught inside that projection and turned
into the placeholder row whose source fields are the Unknown sentinel and
whose transformation is the descriptive error string of that branch. -/
theorem process_per_projection_error_isolation :
    (∀ (ctes : List CteDef) (ft : Option (String × String × String))
        (pre : List Sx) (p : Sx) (rest : List Sx),
      process_with_and_select ⟨ctes, pre ++ p :: rest, ft⟩
        = process_with_and_select ⟨ctes, pre, ft⟩
          ++ process_with_and_select ⟨ctes, [p], ft⟩
          ++ process_with_and_select ⟨ctes, rest, ft⟩)
    ∧ (∀ (cdefs : CteDefs) (tam : List (String × String))
        (mainTable curTable : String) (inner : Sx) (a : String) (e : PyExc),
        aliasBody cdefs tam curTable inner a = .error e →
        processProjection cdefs tam mainTable curTable (.aliasE inner a)
          = [errRow a "Error tracing alias"])
    ∧ (∀ (cdefs : CteDefs) (tam : List (String × String))
        (mainTable curTable : String) (n t : String) (e : PyExc),
        columnBody cdefs tam curTable (Sx.col n t) = .error e →
        processProjection cdefs tam mainTable curTable (.col n t)
          = [errRow n "Error tracing expression"])
    ∧ (∀ (cdefs : CteDefs) (tam : List (String × String))
        (mainTable curTable : String) (entries : List (String × ColInfo)),
        alookup cdefs mainTable = some entries →
        processProjection cdefs tam mainTable curTable .star
          = entries.map (fun ent =>
              match starColBody cdefs tam mainTable curTable ent.1 with
              | .ok r => r
              | .error _ => errRow ent.1 "Error tracing column")) := by
  refine ⟨?_, ?_, ?_, ?_⟩
  · intro ctes ft pre p rest
    simp [process_with_and_select]
  · intro cdefs tam mainTable curTable inner a e h
    simp [processProjection, h]
  · intro cdefs tam mainTable curTable n t e h
    simp [processProjection, h]
  · intro cdefs tam mainTable curTable entries h
    simp only [processProjection, h]
    clear h
    induction entries with
    | nil => simp
    | cons x xs ih =>
      simp only [List.map_cons, List.flatten_cons, ih]
      cases starColBody cdefs tam mainTable curTable x.1 <;> simp

/-- Witness for C2 at concrete inputs: a two-projection query where the first
projection is an alias whose tracing raises NameError; the rows of the first
projection are the placeholder and the second projection still produces its
row. -/
theorem process_per_projection_error_isolation_witness :
    process_with_and_select ⟨[], [Sx.aliasE (Sx.col "x" "") "y", Sx.col "z" ""],
        some ("", "", "t")⟩
      = process_with_and_select ⟨[], [], some ("", "", "t")⟩
        ++ process_with_and_select ⟨[], [Sx.aliasE (Sx.col "x" "") "y"], some ("", "", "t")⟩
        ++ process_with_and_select ⟨[], [Sx.col "z" ""], some ("", "", "t")⟩
    ∧ aliasBody [] [("t", "t")] "t" (Sx.col "x" "") "y" = .error .nameError
    ∧ processProjection [] [("t", "t")] "t" "t" (.aliasE (Sx.col "x" "") "y")
        = [errRow "y" "Error tracing alias"] := by
  refine ⟨?_, ?_, ?_⟩
  · exact process_per_projection_error_isolation.1 [] (some ("", "", "t"))
      [] (Sx.aliasE (Sx.col "x" "") "y") [Sx.col "z" ""]
  · simp [aliasBody, extract_source_info, Except.bind]
  · exact process_per_projection_error_isolation.2.1 [] [("t", "t")] "t" "t"
      (Sx.col "x" "") "y" .nameError
      (by simp [aliasBody, extract_source_info, Except.bind])

/-- C3: the success paths of the Star branch (for a FROM target recorded in
cte_definitions) and of the Alias branch call extract_source_info, which is
defined nowhere in the program, so NameError is raised on every such
projection, the per-projection handler fires, and the emitted rows always
have the Unknown sentinel in Source Database, Source Schema, Source Table and
Source Columns, with transformation Error tracing column respectively Error
tracing alias, regardless of the input SQL. -/
theorem extract_source_info_undefined_error_rows
    (cdefs : CteDefs) (tam : List (String × String))
    (mainTable curTable : String) (entries : List (String × ColInfo))
    (inner : Sx) (a : String) :
    (alookup cdefs mainTable = some entries →
      processProjection cdefs tam mainTable curTable Sx.star
        = entries.map (fun e => errRow e.1 "Error tracing column"))
    ∧ processProjection cdefs tam mainTable curTable (Sx.aliasE inner a)
        = [errRow a "Error tracing alias"] := by
  constructor
  · intro h
    simp only [processProjection, h]
    clear h
    induction entries with
    | nil => simp
    | cons x xs ih =>
      simp only [List.map_cons, List.flatten_cons] at ih ⊢
      rw [show starColBody cdefs tam mainTable curTable x.1 = .error .nameError by
        simp [starColBody, extract_source_info, Except.bind]]
      simpa using ih
  · have hb : aliasBody cdefs tam curTable inner a = .error .nameError := by
      simp [aliasBody, extract_source_info, Except.bind]
    simp [processProjection, hb]

/-- Witness for C3 at a concrete input: the query of scenario A of the
specification, WITH a AS (SELECT id FROM db.sch.raw) SELECT id AS customer_id
FROM a, whose only projection is an alias; the emitted row is the Unknown
placeholder. -/
theorem extract_source_info_undefined_error_rows_witness :
    alookup [("a", [("id", ColInfo.mk ["id"] (Sx.col "id" "") "db.sch.raw")])] "a"
      = some [("id", ColInfo.mk ["id"] (Sx.col "id" "") "db.sch.raw")]
    ∧ processProjection
        [("a", [("id", ColInfo.mk ["id"] (Sx.col "id" "") "db.sch.raw")])]
        [("a", "a")] "a" "a" Sx.star
        = [errRow "id" "Error tracing column"]
    ∧ processProjection
        [("a", [("id", ColInfo.mk ["id"] (Sx.col "id" "") "db.sch.raw")])]
        [("a", "a")] "a" "a" (Sx.aliasE (Sx.col "id" "") "customer_id")
        = [errRow "customer_id" "Error tracing alias"] := by
  have h := extract_source_info_undefined_error_rows
    [("a", [("id", ColInfo.mk ["id"] (Sx.col "id" "") "db.sch.raw")])]
    [("a", "a")] "a" "a"
    [("id", ColInfo.mk ["id"] (Sx.col "id" "") "db.sch.raw")]
    (Sx.col "id" "") "customer_id"
  have hl : alookup [("a", [("id", ColInfo.mk ["id"] (Sx.col "id" "") "db.sch.raw")])] "a"
      = some [("id", ColInfo.mk ["id"] (Sx.col "id" "") "db.sch.raw")] := by
    simp [alookup]
  exact ⟨hl, by simpa using h.1 hl, h.2⟩

/-- C10 counterexample: a bare unaliased expression projection emits no row.
For SELECT price * qty FROM a, a query whose single projection is a bare
multiplication, process_with_and_select emits no rows at all, contradicting
the claim that exactly one row is emitted for every projection. -/
theorem bare_expression_projection_emits_no_row :
    process_with_and_select
      ⟨[], [Sx.bin .mul (Sx.col "price" "") (Sx.col "qty" "")],
        some ("", "", "a")⟩ = [] := by
  rfl

/-- C10 amended: rows are emitted in projection order, with exactly one row
per Star, Alias or Column projection (one per recorded scope entry for a Star
whose FROM target is a known CTE), and no row at all for a bare projection of
any other shape. -/
theorem rows_per_projection_in_order :
    (∀ (ctes : List CteDef) (ft : Option (String × String × String))
        (pre rest : List Sx),
      process_with_and_select ⟨ctes, pre ++ rest, ft⟩
        = process_with_and_select ⟨ctes, pre, ft⟩
          ++ process_with_and_select ⟨ctes, rest, ft⟩)
    ∧ (∀ (cdefs : CteDefs) (tam : List (String × String))
        (mainTable curTable : String),
      (∀ entries, alookup cdefs mainTable = some entries →
        (processProjection cdefs tam mainTable curTable .star).length
          = entries.length)
      ∧ (alookup cdefs mainTable = none →
        (processProjection cdefs tam mainTable curTable .star).length = 1)
      ∧ (∀ inner a,
        (processProjection cdefs tam mainTable curTable (.aliasE inner a)).length = 1)
      ∧ (∀ n t,
        (processProjection cdefs tam mainTable curTable (.col n t)).length = 1)
      ∧ (∀ p : Sx, p ≠ .star → (∀ inner a, p ≠ .aliasE inner a) →
          (∀ n t, p ≠ .col n t) →
        processProjection cdefs tam mainTable curTable p = [])) := by
  constructor
  · intro ctes ft pre rest
    simp [process_with_and_select]
  · intro cdefs tam mainTable curTable
    refine ⟨?_, ?_, ?_, ?_, ?_⟩
    · intro entries h
      simp only [processProjection, h]
      clear h
      induction entries with
      | nil => simp
      | cons x xs ih =>
        simp only [List.map_cons, List.flatten_cons, List.length_append, ih,
          List.length_cons]
        cases starColBody cdefs tam mainTable curTable x.1 <;> (simp; omega)
    · intro h
      simp [processProjection, h]
    · intro inner a
      simp only [processProjection]
      cases aliasBody cdefs tam curTable inner a <;> simp
    · intro n t
      simp only [processProjection]
      cases columnBody cdefs tam curTable (Sx.col n t) <;> simp
    · intro p h1 h2 h3
      cases p <;> simp_all [processProjection]

/-- Witness for C10 at concrete inputs: a query with one alias and one column
projection emits the rows of both, in order, and a star over an unknown table
emits one row. -/
theorem rows_per_projection_in_order_witness :
    process_with_and_select ⟨[], [Sx.aliasE (Sx.col "x" "") "y", Sx.col "z" ""],
        some ("", "", "t")⟩
      = process_with_and_select ⟨[], [Sx.aliasE (Sx.col "x" "") "y"], some ("", "", "t")⟩
        ++ process_with_and_select ⟨[], [Sx.col "z" ""], some ("", "", "t")⟩
    ∧ alookup ([] : CteDefs) "t" = none
    ∧ (processProjection [] [("t", "t")] "t" "t" .star).length = 1
    ∧ (processProjection [] [("t", "t")] "t" "t" (.aliasE (Sx.col "x" "") "y")).length = 1
    ∧ (processProjection [] [("t", "t")] "t" "t" (.col "z" "")).length = 1
    ∧ processProjection [] [("t", "t")] "t" "t"
        (.bin .mul (Sx.col "price" "") (Sx.col "qty" "")) = [] := by
  refine ⟨?_, ?_, ?_, ?_, ?_, ?_⟩
  · exact rows_per_projection_in_order.1 [] (some ("", "", "t"))
      [Sx.aliasE (Sx.col "x" "") "y"] [Sx.col "z" ""]
  · rfl
  · exact (rows_per_projection_in_order.2 [] [("t", "t")] "t" "t").2.1 rfl
  · exact (rows_per_projection_in_order.2 [] [("t", "t")] "t" "t").2.2.1
      (Sx.col "x" "") "y"
  · exact (rows_per_projection_in_order.2 [] [("t", "t")] "t" "t").2.2.2.1 "z" ""
  · exact (rows_per_projection_in_order.2 [] [("t", "t")] "t" "t").2.2.2.2
      (.bin .mul (Sx.col "price" "") (Sx.col "qty" "")) (by intro h; cases h)
      (by intro inner a h; cases h) (by intro n t h; cases h)

/-- C9: evaluation of the code at the scenario F input,
WITH a AS (SELECT id FROM db.sch.raw) SELECT COUNT(DISTINCT id) AS n FROM a.
The claim (and the specification) expects a row for n with source columns id
and a transformation preserving the DISTINCT flag; the code instead emits the
Unknown placeholder row, because the Alias branch calls the undefined
extract_source_info and the handler fires.  Moreover, even at the level of
extract_source_columns_and_transformation, the aggregate branch returns an
empty source-column set for COUNT(DISTINCT id): sqlglot parses the DISTINCT
keyword as an exp.Distinct wrapper inside the this arg, the args.get distinct
flag the branch copies is absent, and the wrapper falls through to the
pass-through else branch, which contributes no columns (the DISTINCT text
survives only because the wrapper node is passed through unchanged). -/
theorem aggregate_distinct_scenario_code_bug :
    process_with_and_select
      ⟨[⟨"a", [Sx.col "id" ""], some ("db", "sch", "raw")⟩],
        [Sx.aliasE (Sx.agg .count (some (Sx.distinctE [Sx.col "id" ""])) [] false) "n"],
        some ("", "", "a")⟩
      = [errRow "n" "Error tracing alias"]
    ∧ (extract (Sx.agg .count (some (Sx.distinctE [Sx.col "id" ""])) [] false)
        [("a", "a")]
        [("a", [("id", ColInfo.mk ["id"] (Sx.col "id" "") "db.sch.raw")])]
        (some "a")).1 = []
    ∧ sxSql (extract (Sx.agg .count (some (Sx.distinctE [Sx.col "id" ""])) [] false)
        [("a", "a")]
        [("a", [("id", ColInfo.mk ["id"] (Sx.col "id" "") "db.sch.raw")])]
        (some "a")).2.1 = "COUNT(DISTINCT id)" := by
  refine ⟨?_, ?_, ?_⟩ <;> rfl

/-- C6 counterexample: for a query with no WITH clause the star expander does
not return the SQL untouched; generate_expanded_sql raises the ValueError for
the missing WITH clause, the caller catches it, skips the record and leaves
the expanded SQL unset. -/
theorem no_with_expander_raises :
    generate_expanded_sql [("t", ["id"])] ⟨[], [EProj.column "id" none]⟩
      = .error .noWithClause
    ∧ expandRecords [⟨"k", ⟨[], [EProj.column "id" none]⟩, [("t", ["id"])]⟩]
      = ([], ["k"]) := by
  exact ⟨rfl, rfl⟩

/-! Helper lemmas about the embedded regex on table.column strings. -/

/-- A word string: nonempty and made only of word characters. -/
def isWordStr (s : String) : Prop :=
  s ≠ "" ∧ ∀ c ∈ s.toList, isWordChar c

instance (s : String) : Decidable (isWordStr s) := by
  unfold isWordStr; infer_instance

/-- alookup hits the head key. -/
theorem alookup_cons_self {α : Type} (k : String) (v : α) (l : List (String × α)) :
    alookup ((k, v) :: l) k = some v := by
  simp [alookup]

/-- takeWhile and dropWhile on a word run followed by a dot. -/
theorem word_run_dot (l r : List Char) (h : ∀ c ∈ l, isWordChar c) :
    (l ++ '.' :: r).takeWhile isWordChar = l
    ∧ (l ++ '.' :: r).dropWhile isWordChar = '.' :: r := by
  induction l with
  | nil =>
    constructor
    · simp [List.takeWhile_cons, show isWordChar '.' = false by decide]
    · simp [List.dropWhile_cons, show isWordChar '.' = false by decide]
  | cons a l ih =>
    have ha : isWordChar a := h a (by simp)
    have ih2 := ih (fun c hc => h c (by simp [hc]))
    constructor
    · simp [List.takeWhile_cons, ha, ih2.1]
    · simp [List.dropWhile_cons, ha, ih2.2]

/-- takeWhile and dropWhile on an all-word list. -/
theorem word_run_all (l : List Char) (h : ∀ c ∈ l, isWordChar c) :
    l.takeWhile isWordChar = l ∧ l.dropWhile isWordChar = [] := by
  induction l with
  | nil => simp
  | cons a l ih =>
    have ha : isWordChar a := h a (by simp)
    have ih2 := ih (fun c hc => h c (by simp [hc]))
    constructor
    · simp [List.takeWhile_cons, ha, ih2.1]
    · simp [List.dropWhile_cons, ha, ih2.2]

/-- The embedded regex on a table.column character string made of two word
runs: no quote, no leading word-dot group survives backtracking, and the tail
captures the two runs. -/
theorem reSearch_table_col (t n : List Char)
    (ht : t ≠ [] ∧ ∀ c ∈ t, isWordChar c)
    (hn : n ≠ [] ∧ ∀ c ∈ n, isWordChar c) :
    reSearch (t ++ '.' :: n) = some (none, none, String.mk t, String.mk n) := by
  have hwd : matchWordDot (t ++ '.' :: n) = some (t ++ ['.'], n) := by
    unfold matchWordDot
    rw [(word_run_dot t n ht.2).1, (word_run_dot t n ht.2).2]
    simp [ht.1]
  have hwd2 : matchWordDot n = none := by
    unfold matchWordDot
    rw [(word_run_all n hn.2).1, (word_run_all n hn.2).2]
    simp [hn.1]
  have hmtn : matchTail n = none := by
    unfold matchTail
    rw [(word_run_all n hn.2).1, (word_run_all n hn.2).2]
    simp [hn.1]
  have hmt : matchTail (t ++ '.' :: n) = some (t, n) := by
    unfold matchTail
    rw [(word_run_dot t n ht.2).1, (word_run_dot t n ht.2).2]
    simp [ht.1, (word_run_all n hn.2).1, hn.1]
  have hnog1 : matchBodyNoG1 (t ++ '.' :: n)
      = some (none, none, String.mk t, String.mk n) := by
    unfold matchBodyNoG1
    rw [hwd]
    simp only [hmtn, hmt]
    rfl
  have hbody : matchBody (t ++ '.' :: n)
      = some (none, none, String.mk t, String.mk n) := by
    unfold matchBody
    rw [hwd]
    simp only [hwd2, hmtn, hnog1]
    rfl
  have hatq : ∀ (c : Char) (cs : List Char), c ≠ '"' →
      matchAt (c :: cs) = matchBody (c :: cs) := by
    intro c cs hc
    unfold matchAt
    split
    · rename_i cs2 heq
      injection heq with h1 _
      exact absurd h1 hc
    · rfl
  obtain ⟨a, t2, rfl⟩ : ∃ a t2, t = a :: t2 := by
    cases t with
    | nil => exact absurd rfl ht.1
    | cons a t2 => exact ⟨a, t2, rfl⟩
  have ha : a ≠ '"' := by
    have hw := ht.2 a (by simp)
    intro he
    rw [he] at hw
    exact absurd hw (by decide)
  show reSearch (a :: (t2 ++ '.' :: n)) = _
  unfold reSearch
  rw [hatq a (t2 ++ '.' :: n) ha]
  have hb2 : matchBody (a :: (t2 ++ '.' :: n))
      = some (none, none, String.mk (a :: t2), String.mk n) := hbody
  rw [hb2]
  rfl

/-- String.mk of toList is the identity. -/
theorem string_mk_toList (s : String) : String.mk s.toList = s := by
  cases s
  rfl

/-- A nonempty string has a nonempty character list. -/
theorem toList_ne_nil (s : String) (h : s ≠ "") : s.toList ≠ [] := by
  intro hn
  apply h
  cases s with
  | mk d =>
    simp [String.toList] at hn
    rw [hn]

/-- The character list of table dot column. -/
theorem toList_table_col (tbl n : String) :
    (tbl ++ "." ++ n).toList = tbl.toList ++ '.' :: n.toList := by
  cases tbl with
  | mk d1 =>
    cases n with
    | mk d2 =>
      show (String.mk d1 ++ "." ++ String.mk d2).data = d1 ++ '.' :: d2
      simp [String.data_append]

/-- extract_source_info_from_transformation on a plain table.column text made
of word characters: no database, no schema, table and column captured. -/
theorem esift_table_col (tbl n : String) (ht : isWordStr tbl) (hn : isWordStr n) :
    extract_source_info_from_transformation (tbl ++ "." ++ n)
      = { database := none, schema := none, table := some tbl, column := some n } := by
  unfold extract_source_info_from_transformation
  rw [toList_table_col, reSearch_table_col tbl.toList n.toList
    ⟨toList_ne_nil tbl ht.1, ht.2⟩ ⟨toList_ne_nil n hn.1, hn.2⟩]
  simp [string_mk_toList]

/-- C6 amended: for a query with no WITH clause, generate_expanded_sql raises
the ValueError for the missing WITH clause (it does not return the SQL), so
the caller skips the record; and when such a query reaches the tracer, each
Column projection yields exactly one row whose final column equals its source
column and whose source table is the outer FROM table. -/
theorem no_with_rows (cat db tbl : String) (names : List String)
    (ht : isWordStr tbl) (hn : ∀ nm ∈ names, isWordStr nm) :
    (∀ (projs : List EProj) (schema : List (String × List String)),
      generate_expanded_sql schema ⟨[], projs⟩ = .error .noWithClause)
    ∧ process_with_and_select
        ⟨[], names.map (fun nm => Sx.col nm ""), some (cat, db, tbl)⟩
      = names.map (fun nm =>
          { finalColumn := nm, sourceDatabase := "Unknown",
            sourceSchema := "Unknown", sourceTable := tbl,
            sourceColumns := nm, transformation := tbl ++ "." ++ nm }) := by
  constructor
  · intro projs schema
    rfl
  · have hrow : ∀ nm, isWordStr nm →
        processProjection [] [(tbl, tbl)] tbl tbl (Sx.col nm "")
          = [{ finalColumn := nm, sourceDatabase := "Unknown",
               sourceSchema := "Unknown", sourceTable := tbl,
               sourceColumns := nm, transformation := tbl ++ "." ++ nm }] := by
      intro nm hnm
      have hx : extract (Sx.col nm "") [(tbl, tbl)] [] (some tbl)
          = ([nm], Sx.col nm tbl, tbl) := by
        have h1 : (if ("" : String) ≠ "" then "" else (some tbl).getD "unknown")
            = tbl := by simp
        unfold extract
        rw [h1]
        simp only [alookup_cons_self, Option.getD_some]
        rfl
      have hsql : sxSql (Sx.col nm tbl) = tbl ++ "." ++ nm := by
        simp [sxSql, ht.1]
      have hcb : columnBody [] [(tbl, tbl)] tbl (Sx.col nm "")
          = .ok { finalColumn := nm, sourceDatabase := "Unknown",
                  sourceSchema := "Unknown", sourceTable := tbl,
                  sourceColumns := nm, transformation := tbl ++ "." ++ nm } := by
        unfold columnBody
        rw [hx]
        simp only [hsql, esift_table_col tbl nm ht hnm]
        simp [pyOrD, sxName, ht.1, hnm.1, pure, Except.pure]
      simp [processProjection, hcb]
    unfold process_with_and_select
    simp only [List.foldl_nil,
      show ainsert ([] : List (String × String)) tbl tbl = [(tbl, tbl)] from rfl]
    induction names with
    | nil => simp
    | cons x xs ih =>
      have hxw := hn x (by simp)
      have ihx := ih (fun nm hm => hn nm (by simp [hm]))
      simp only [List.map_cons, List.flatten_cons] at ihx ⊢
      rw [hrow x hxw]
      simpa using ihx

/-- Witness for C6 at concrete inputs: a no-WITH query is rejected by the
expander, and SELECT id FROM tbl yields exactly the row with final column id,
source column id and source table tbl. -/
theorem no_with_rows_witness :
    isWordStr "tbl" ∧ (∀ nm ∈ ["id"], isWordStr nm)
    ∧ generate_expanded_sql [("t", ["id"])] ⟨[], [EProj.star]⟩
        = .error .noWithClause
    ∧ process_with_and_select ⟨[], [Sx.col "id" ""], some ("", "", "tbl")⟩
      = [{ finalColumn := "id", sourceDatabase := "Unknown",
           sourceSchema := "Unknown", sourceTable := "tbl",
           sourceColumns := "id", transformation := "tbl.id" }] := by
  have h := no_with_rows "" "" "tbl" ["id"] (by decide) (by decide)
  exact ⟨by decide, by decide, h.1 [EProj.star] [("t", ["id"])], h.2⟩

/-! Lemmas about the scope keys recorded by the expander, for C4. -/

/-- Inserting a fresh key appends it to the key list. -/
theorem ainsert_keys_new {α : Type} (l : List (String × α)) (k : String) (v : α)
    (h : k ∉ l.map Prod.fst) :
    (ainsert l k v).map Prod.fst = l.map Prod.fst ++ [k] := by
  induction l with
  | nil => simp [ainsert]
  | cons p rest ih =>
    simp only [List.map_cons, List.mem_cons] at h
    push_neg at h
    have hne : p.1 ≠ k := Ne.symm h.1
    simp [ainsert, hne, ih h.2]

/-- A successful CTE pass over fresh, duplicate-free names records exactly
those names, in declaration order, after the keys already present. -/
theorem processECtes_keys (schema : List (String × List String)) :
    ∀ (cs : List ECte) (scopes0 : List (String × List String))
      (cs2 : List ECte) (scopes : List (String × List String)),
      processECtes schema cs scopes0 = .ok (cs2, scopes) →
      (∀ c ∈ cs, c.name ∉ scopes0.map Prod.fst) →
      (cs.map ECte.name).Nodup →
      scopes.map Prod.fst = scopes0.map Prod.fst ++ cs.map ECte.name := by
  intro cs
  induction cs with
  | nil =>
    intro scopes0 cs2 scopes h _ _
    simp [processECtes] at h
    simp [h.2]
  | cons c rest ih =>
    intro scopes0 cs2 scopes h hfresh hnd
    unfold processECtes at h
    cases hf : c.fromc with
    | absent => rw [hf] at h; exact absurd h (by simp)
    | noTable => rw [hf] at h; exact absurd h (by simp)
    | table t =>
      rw [hf] at h
      simp only at h
      cases hs : (match alookup schema (get_fully_qualified_name t) with
        | some cl => some cl
        | none => alookup scopes0 (get_fully_qualified_name t)) with
      | none => rw [hs] at h; exact absurd h (by simp)
      | some srcCols =>
        rw [hs] at h
        simp only at h
        cases hrec : processECtes schema rest
            (ainsert scopes0 c.name
              ((replace_star_in_select c.projs srcCols scopes0).map projOutName)) with
        | error e => rw [hrec] at h; exact absurd h (by simp)
        | ok pr =>
          rw [hrec] at h
          simp only [Except.ok.injEq, Prod.mk.injEq] at h
          have hcn : c.name ∉ scopes0.map Prod.fst := hfresh c (by simp)
          have hkeys := ainsert_keys_new scopes0 c.name
            ((replace_star_in_select c.projs srcCols scopes0).map projOutName) hcn
          have hnd2 : (rest.map ECte.name).Nodup := by
            simpa using hnd.of_cons
          have hfresh2 : ∀ c2 ∈ rest, c2.name ∉
              (ainsert scopes0 c.name
                ((replace_star_in_select c.projs srcCols scopes0).map projOutName)).map
                Prod.fst := by
            intro c2 hc2
            rw [hkeys]
            simp only [List.mem_append, List.mem_singleton]
            push_neg
            refine ⟨hfresh c2 (by simp [hc2]), ?_⟩
            intro he
            have hmem : c.name ∈ rest.map ECte.name := by
              rw [← he]; exact List.mem_map_of_mem ECte.name hc2
            rw [List.map_cons, List.nodup_cons] at hnd
            exact hnd.1 hmem
          have hrec2 := ih _ pr.1 pr.2 hrec hfresh2 hnd2
          have hgoal : List.map Prod.fst pr.2
              = List.map Prod.fst scopes0 ++ List.map ECte.name (c :: rest) := by
            rw [hrec2, hkeys]
            simp
          exact h.2 ▸ hgoal

/-- C4: on success the outermost SELECT, the root select found first by the
depth-first search of find_outer_select and the one not inside any CTE body,
is expanded with the scope recorded under the last key of cte_columns: its
select list is rewritten by replace_star_in_select with those columns, a bare
star becoming exactly that column list, in order, as identifiers; and when
the CTE names are distinct the last key is precisely the name of the last
declared CTE. -/
theorem outer_star_uses_last_cte_scope
    (schema : List (String × List String)) (q q2 : EQuery)
    (scopes : List (String × List String))
    (h : expandCore schema q = .ok (q2, scopes)) :
    q2.projs = replace_star_in_select (find_outer_select q).projs
        ((alookup scopes ((scopes.map Prod.fst).getLastD "")).getD []) scopes
    ∧ (∀ (cur : List String) (cteCols : List (String × List String)),
        replaceStarProj cur cteCols .star = cur.map EProj.identP)
    ∧ ((q.ctes.map ECte.name).Nodup →
        (scopes.map Prod.fst) = q.ctes.map ECte.name) := by
  unfold expandCore at h
  by_cases hc : q.ctes = []
  · rw [if_pos hc] at h
    exact absurd h (by simp)
  · rw [if_neg hc] at h
    cases hp : processECtes schema q.ctes [] with
    | error e => rw [hp] at h; exact absurd h (by simp)
    | ok pr =>
      rw [hp] at h
      simp only [Except.ok.injEq, Prod.mk.injEq] at h
      refine ⟨?_, ?_, ?_⟩
      · rw [← h.1, ← h.2]
      · intro cur cteCols
        simp [replaceStarProj]
      · intro hnd
        have := processECtes_keys schema q.ctes [] pr.1 pr.2 hp
          (by intro c _; simp) hnd
        rw [← h.2, this]
        simp

/-- Witness for C4 at a concrete input: two CTEs a and b; the outer star is
expanded with the scope of b, the last declared CTE. -/
theorem outer_star_uses_last_cte_scope_witness :
    expandCore [("db.sch.raw", ["x", "y"])]
      ⟨[⟨"a", [EProj.star], .table ⟨some "db", some "sch", some "raw"⟩⟩,
        ⟨"b", [EProj.column "x" (some "a")], .table ⟨none, none, some "a"⟩⟩],
        [EProj.star]⟩
      = .ok (⟨[⟨"a", [EProj.identP "x", EProj.identP "y"],
                .table ⟨some "db", some "sch", some "raw"⟩⟩,
              ⟨"b", [EProj.column "x" (some "a")], .table ⟨none, none, some "a"⟩⟩],
             [EProj.identP "x"]⟩,
             [("a", ["x", "y"]), ("b", ["x"])])
    ∧ [EProj.identP "x"]
      = replace_star_in_select [EProj.star]
          ((alookup [("a", ["x", "y"]), ("b", ["x"])]
            (([("a", ["x", "y"]), ("b", ["x"])].map Prod.fst).getLastD "")).getD [])
          [("a", ["x", "y"]), ("b", ["x"])]
    ∧ ([("a", ["x", "y"]), ("b", ["x"])].map Prod.fst)
      = ["a", "b"] := by
  have hco : expandCore [("db.sch.raw", ["x", "y"])]
      ⟨[⟨"a", [EProj.star], .table ⟨some "db", some "sch", some "raw"⟩⟩,
        ⟨"b", [EProj.column "x" (some "a")], .table ⟨none, none, some "a"⟩⟩],
        [EProj.star]⟩
      = .ok (⟨[⟨"a", [EProj.identP "x", EProj.identP "y"],
                .table ⟨some "db", some "sch", some "raw"⟩⟩,
              ⟨"b", [EProj.column "x" (some "a")], .table ⟨none, none, some "a"⟩⟩],
             [EProj.identP "x"]⟩,
             [("a", ["x", "y"]), ("b", ["x"])]) := by rfl
  have h := outer_star_uses_last_cte_scope _ _ _ _ hco
  refine ⟨hco, ?_, ?_⟩
  · exact h.1
  · exact h.2.2 (by decide)

/-- C7 counterexample: with a schema that resolves db.sch.raw, a query whose
first CTE reads from the unknown source nope and whose second CTE is well
formed is aborted as a whole: the expansion raises on the first CTE, the
second CTE is never processed, no placeholder row is produced, and the main
loop drops the record entirely while other records continue. -/
theorem unknown_source_aborts_whole_query :
    expandCore [("db.sch.raw", ["x"])]
      ⟨[⟨"c1", [EProj.star], .table ⟨none, none, some "nope"⟩⟩,
        ⟨"c2", [EProj.column "x" none], .table ⟨some "db", some "sch", some "raw"⟩⟩],
        [EProj.star]⟩
      = .error (.unknownSource "nope")
    ∧ expandRecords
        [⟨"k1", ⟨[⟨"c1", [EProj.star], .table ⟨none, none, some "nope"⟩⟩,
                  ⟨"c2", [EProj.column "x" none],
                    .table ⟨some "db", some "sch", some "raw"⟩⟩],
                  [EProj.star]⟩, [("db.sch.raw", ["x"])]⟩,
         ⟨"k2", ⟨[⟨"a", [EProj.star], .table ⟨some "db", some "sch", some "raw"⟩⟩],
                  [EProj.star]⟩, [("db.sch.raw", ["x"])]⟩]
      = ([("k2", ⟨[⟨"A", [EProj.identP "X"],
                    .table ⟨some "DB", some "SCH", some "RAW"⟩⟩],
                  [EProj.identP "X"]⟩)], ["k1"]) := by
  exact ⟨rfl, rfl⟩

/-- C7 amended: an UnknownSource or UnsupportedFromShape failure in any CTE
raises out of generate_expanded_sql and aborts expansion of the whole query;
no placeholder rows are emitted by the expander, and the caller catches the
exception per record, leaves that record without expanded SQL, and continues
with the remaining records.  (The per-projection Unknown placeholder recovery
exists only in the tracer.) -/
theorem cte_source_failure_aborts_query
    (schema : List (String × List String)) (name : String) (projs : List EProj)
    (t : ETable) (rest : List ECte) (outer : List EProj)
    (h : alookup schema (get_fully_qualified_name t) = none) :
    expandCore schema ⟨⟨name, projs, .table t⟩ :: rest, outer⟩
      = .error (.unknownSource (get_fully_qualified_name t))
    ∧ expandCore schema ⟨⟨name, projs, .noTable⟩ :: rest, outer⟩
      = .error (.unsupportedFrom name)
    ∧ (∀ (k : String) (others : List ERecord),
        expandRecords (⟨k, ⟨⟨name, projs, .table t⟩ :: rest, outer⟩, schema⟩ :: others)
          = ((expandRecords others).1, k :: (expandRecords others).2)) := by
  have h1 : expandCore schema ⟨⟨name, projs, .table t⟩ :: rest, outer⟩
      = .error (.unknownSource (get_fully_qualified_name t)) := by
    unfold expandCore
    rw [if_neg (by simp)]
    unfold processECtes
    simp only [h]
    rfl
  refine ⟨h1, ?_, ?_⟩
  · unfold expandCore
    rw [if_neg (by simp)]
    rfl
  · intro k others
    simp [expandRecords, generate_expanded_sql, h1]

/-- Witness for C7 at concrete inputs: a CTE reading from the unknown source
nope aborts the whole query for both failure shapes, and the record loop
drops the record. -/
theorem cte_source_failure_aborts_query_witness :
    alookup ([] : List (String × List String))
        (get_fully_qualified_name ⟨none, none, some "nope"⟩) = none
    ∧ expandCore []
        ⟨[⟨"c1", [EProj.star], .table ⟨none, none, some "nope"⟩⟩], [EProj.star]⟩
      = .error (.unknownSource (get_fully_qualified_name ⟨none, none, some "nope"⟩))
    ∧ expandCore [] ⟨[⟨"c1", [EProj.star], .noTable⟩], [EProj.star]⟩
      = .error (.unsupportedFrom "c1")
    ∧ expandRecords
        [⟨"k", ⟨[⟨"c1", [EProj.star], .table ⟨none, none, some "nope"⟩⟩],
          [EProj.star]⟩, []⟩]
      = (([] : List (String × EQuery)), ["k"]) := by
  have h := cte_source_failure_aborts_query [] "c1" [EProj.star]
    ⟨none, none, some "nope"⟩ [] [EProj.star] rfl
  refine ⟨rfl, h.1, h.2.1, ?_⟩
  have h3 := h.2.2 "k" []
  exact h3

/-! Lemmas for C8: idempotence of the star-expansion pass at the tree
level, and its failure after the upper-casing serialization. -/

/-- alookup finds only entries of the list. -/
theorem alookup_mem {α : Type} (l : List (String × α)) (k : String) (v : α)
    (h : alookup l k = some v) : (k, v) ∈ l := by
  induction l with
  | nil => simp [alookup] at h
  | cons p rest ih =>
    obtain ⟨k2, v2⟩ := p
    by_cases hk : k2 = k
    · subst hk
      simp [alookup] at h
      simp [h]
    · simp [alookup, hk] at h
      exact List.mem_cons_of_mem _ (ih h)

/-- Inserting a fresh key appends the pair. -/
theorem ainsert_new_append {α : Type} (l : List (String × α)) (k : String) (v : α)
    (h : k ∉ l.map Prod.fst) : ainsert l k v = l ++ [(k, v)] := by
  induction l with
  | nil => simp [ainsert]
  | cons p rest ih =>
    simp only [List.map_cons, List.mem_cons] at h
    push_neg at h
    have hne : p.1 ≠ k := Ne.symm h.1
    simp [ainsert, hne, ih h.2]

/-- Expansion products are fixed points of the per-projection rewriting: a
projection produced by one expansion step is left alone by a second one, for
any current column list, provided no recorded scope column is the star
text. -/
theorem replaceStarProj_fixed (cur cur2 : List String)
    (scopes : List (String × List String))
    (hst : ∀ p ∈ scopes, "*" ∉ p.2) (x : EProj) :
    ∀ y ∈ replaceStarProj cur scopes x, replaceStarProj cur2 scopes y = [y] := by
  intro y hy
  cases x with
  | star =>
    simp only [replaceStarProj, List.mem_map] at hy
    obtain ⟨c, _, rfl⟩ := hy
    rfl
  | column n t =>
    cases t with
    | none =>
      simp only [replaceStarProj, List.mem_singleton] at hy
      subst hy
      rfl
    | some tb =>
      by_cases hn : n = "*"
      · subst hn
        cases hl : alookup scopes tb with
        | none =>
          simp [replaceStarProj, hl] at hy
          subst hy
          simp [replaceStarProj, hl]
        | some cl =>
          simp [replaceStarProj, hl] at hy
          obtain ⟨c, hc, rfl⟩ := hy
          have hcne : c ≠ "*" := by
            intro he
            exact (hst (tb, cl) (alookup_mem _ _ _ hl)) (he ▸ hc)
          simp [replaceStarProj, hcne]
      · simp only [replaceStarProj, if_neg hn, List.mem_singleton] at hy
        subst hy
        simp [replaceStarProj, hn]
  | aliasP a =>
    simp only [replaceStarProj, List.mem_singleton] at hy
    subst hy
    rfl
  | identP nn =>
    simp only [replaceStarProj, List.mem_singleton] at hy
    subst hy
    rfl
  | otherP a s =>
    simp only [replaceStarProj, List.mem_singleton] at hy
    subst hy
    rfl

/-- A list whose every element is a fixed point flattens back to itself. -/
theorem flatten_fixed {α : Type} (g : α → List α) (m : List α)
    (h : ∀ y ∈ m, g y = [y]) : (m.map g).flatten = m := by
  induction m with
  | nil => simp
  | cons x xs ih =>
    simp only [List.map_cons, List.flatten_cons]
    rw [h x (by simp), ih (fun y hy => h y (by simp [hy]))]
    rfl

/-- replace_star_in_select is a fixed point after one application, for any
later current column list, provided no recorded scope column is the star
text. -/
theorem replace_star_fixed (projs : List EProj) (cur cur2 : List String)
    (scopes : List (String × List String))
    (hst : ∀ p ∈ scopes, "*" ∉ p.2) :
    replace_star_in_select (replace_star_in_select projs cur scopes) cur2 scopes
      = replace_star_in_select projs cur scopes := by
  unfold replace_star_in_select
  apply flatten_fixed
  intro y hy
  simp only [List.mem_flatten, List.mem_map] at hy
  obtain ⟨l, ⟨x, _, rfl⟩, hyl⟩ := hy
  exact replaceStarProj_fixed cur cur2 scopes hst x y hyl

/-- Structure of a successful CTE pass: the recorded scopes extend the
incoming scopes by one entry per CTE in declaration order, and the rewritten
CTEs keep their names and number. -/
theorem processECtes_extends (schema : List (String × List String)) :
    ∀ (cs : List ECte) (scopes0 : List (String × List String))
      (cs2 : List ECte) (scopes : List (String × List String)),
      processECtes schema cs scopes0 = .ok (cs2, scopes) →
      (∀ c ∈ cs, c.name ∉ scopes0.map Prod.fst) →
      (cs.map ECte.name).Nodup →
      (∃ suf, scopes = scopes0 ++ suf ∧ suf.map Prod.fst = cs.map ECte.name)
      ∧ cs2.map ECte.name = cs.map ECte.name := by
  intro cs
  induction cs with
  | nil =>
    intro scopes0 cs2 scopes h _ _
    simp [processECtes] at h
    refine ⟨⟨[], by simp [h.2.symm], by simp⟩, by simp [← h.1]⟩
  | cons c rest ih =>
    intro scopes0 cs2 scopes h hfresh hnd
    unfold processECtes at h
    cases hf : c.fromc with
    | absent => rw [hf] at h; exact absurd h (by simp)
    | noTable => rw [hf] at h; exact absurd h (by simp)
    | table t =>
      rw [hf] at h
      simp only at h
      cases hs : (match alookup schema (get_fully_qualified_name t) with
        | some cl => some cl
        | none => alookup scopes0 (get_fully_qualified_name t)) with
      | none => rw [hs] at h; exact absurd h (by simp)
      | some srcCols =>
        rw [hs] at h
        simp only at h
        cases hrec : processECtes schema rest
            (ainsert scopes0 c.name
              ((replace_star_in_select c.projs srcCols scopes0).map projOutName)) with
        | error e => rw [hrec] at h; exact absurd h (by simp)
        | ok pr =>
          rw [hrec] at h
          simp only [Except.ok.injEq, Prod.mk.injEq] at h
          have hcn : c.name ∉ scopes0.map Prod.fst := hfresh c (by simp)
          have hins := ainsert_new_append scopes0 c.name
            ((replace_star_in_select c.projs srcCols scopes0).map projOutName) hcn
          have hnd2 : (rest.map ECte.name).Nodup := by
            simpa using hnd.of_cons
          have hfresh2 : ∀ c2 ∈ rest, c2.name ∉
              (ainsert scopes0 c.name
                ((replace_star_in_select c.projs srcCols scopes0).map projOutName)).map
                Prod.fst := by
            intro c2 hc2
            rw [hins]
            simp only [List.map_append, List.mem_append, List.map_cons,
              List.map_nil, List.mem_singleton]
            push_neg
            refine ⟨hfresh c2 (by simp [hc2]), ?_⟩
            intro he
            have hmem : c.name ∈ rest.map ECte.name := by
              rw [← he]; exact List.mem_map_of_mem ECte.name hc2
            rw [List.map_cons, List.nodup_cons] at hnd
            exact hnd.1 hmem
          obtain ⟨⟨suf, hsuf1, hsuf2⟩, hnames⟩ := ih _ pr.1 pr.2 hrec hfresh2 hnd2
          constructor
          · refine ⟨(c.name,
              (replace_star_in_select c.projs srcCols scopes0).map projOutName) :: suf,
              ?_, ?_⟩
            · rw [← h.2, hsuf1, hins]
              simp
            · simp [hsuf2]
          · rw [← h.1]
            simp [hnames]

/-- The CTE pass is idempotent: running it again on its rewritten CTEs from
the same incoming scopes reproduces the same CTEs and scopes, provided CTE
names are duplicate-free and fresh and no recorded scope column is the star
text. -/
theorem processECtes_idem (schema : List (String × List String)) :
    ∀ (cs : List ECte) (scopes0 : List (String × List String))
      (cs2 : List ECte) (scopes : List (String × List String)),
      processECtes schema cs scopes0 = .ok (cs2, scopes) →
      (∀ c ∈ cs, c.name ∉ scopes0.map Prod.fst) →
      (cs.map ECte.name).Nodup →
      (∀ p ∈ scopes, "*" ∉ p.2) →
      processECtes schema cs2 scopes0 = .ok (cs2, scopes) := by
  intro cs
  induction cs with
  | nil =>
    intro scopes0 cs2 scopes h _ _ _
    simp [processECtes] at h
    rw [h.1, ← h.2]
    rfl
  | cons c rest ih =>
    intro scopes0 cs2 scopes h hfresh hnd hst
    have hext := processECtes_extends schema (c :: rest) scopes0 cs2 scopes h
      hfresh hnd
    obtain ⟨⟨suf, hsuf1, _⟩, _⟩ := hext
    have hs0 : ∀ p ∈ scopes0, "*" ∉ p.2 := by
      intro p hp
      exact hst p (by rw [hsuf1]; exact List.mem_append_left _ hp)
    unfold processECtes at h
    cases hf : c.fromc with
    | absent => rw [hf] at h; exact absurd h (by simp)
    | noTable => rw [hf] at h; exact absurd h (by simp)
    | table t =>
      rw [hf] at h
      simp only at h
      cases hs : (match alookup schema (get_fully_qualified_name t) with
        | some cl => some cl
        | none => alookup scopes0 (get_fully_qualified_name t)) with
      | none => rw [hs] at h; exact absurd h (by simp)
      | some srcCols =>
        rw [hs] at h
        simp only at h
        cases hrec : processECtes schema rest
            (ainsert scopes0 c.name
              ((replace_star_in_select c.projs srcCols scopes0).map projOutName)) with
        | error e => rw [hrec] at h; exact absurd h (by simp)
        | ok pr =>
          rw [hrec] at h
          simp only [Except.ok.injEq, Prod.mk.injEq] at h
          have hfix := replace_star_fixed c.projs srcCols srcCols scopes0 hs0
          have hnd2 : (rest.map ECte.name).Nodup := by
            simpa using hnd.of_cons
          have hcn : c.name ∉ scopes0.map Prod.fst := hfresh c (by simp)
          have hins := ainsert_new_append scopes0 c.name
            ((replace_star_in_select c.projs srcCols scopes0).map projOutName) hcn
          have hfresh2 : ∀ c2 ∈ rest, c2.name ∉
              (ainsert scopes0 c.name
                ((replace_star_in_select c.projs srcCols scopes0).map projOutName)).map
                Prod.fst := by
            intro c2 hc2
            rw [hins]
            simp only [List.map_append, List.mem_append, List.map_cons,
              List.map_nil, List.mem_singleton]
            push_neg
            refine ⟨hfresh c2 (by simp [hc2]), ?_⟩
            intro he
            have hmem : c.name ∈ rest.map ECte.name := by
              rw [← he]; exact List.mem_map_of_mem ECte.name hc2
            rw [List.map_cons, List.nodup_cons] at hnd
            exact hnd.1 hmem
          have hidem := ih _ pr.1 pr.2 hrec hfresh2 hnd2
            (by intro p hp; exact hst p (h.2 ▸ hp))
          rw [← h.1]
          unfold processECtes
          simp only [hs, hfix, hidem, h.2]

/-- C8 counterexample: generate_expanded_sql applied to its own output does
not yield the same tree.  The expander succeeds on
WITH a AS (SELECT * FROM db.sch.raw) SELECT * and returns upper-cased SQL;
feeding that output back with the same reference map raises UnknownSource,
because the upper-cased FROM target DB.SCH.RAW no longer matches the
case-sensitive reference-map key db.sch.raw. -/
theorem expansion_not_idempotent_after_uppercase :
    generate_expanded_sql [("db.sch.raw", ["x", "y"])]
      ⟨[⟨"a", [EProj.star], .table ⟨some "db", some "sch", some "raw"⟩⟩],
        [EProj.star]⟩
      = .ok ⟨[⟨"A", [EProj.identP "X", EProj.identP "Y"],
               .table ⟨some "DB", some "SCH", some "RAW"⟩⟩],
             [EProj.identP "X", EProj.identP "Y"]⟩
    ∧ generate_expanded_sql [("db.sch.raw", ["x", "y"])]
        ⟨[⟨"A", [EProj.identP "X", EProj.identP "Y"],
           .table ⟨some "DB", some "SCH", some "RAW"⟩⟩],
          [EProj.identP "X", EProj.identP "Y"]⟩
      = .error (.unknownSource "DB.SCH.RAW") := by
  exact ⟨rfl, rfl⟩

/-- C8 amended: star expansion is idempotent at the tree level, before the
final upper-casing serialization: re-running the rewriting core of
generate_expanded_sql on its own output tree with the same reference map
reproduces exactly the same tree and the same recorded scopes, provided the
CTE names are duplicate-free and no recorded scope column is the star text.
The full function is not idempotent on its own serialized output, because the
upper-casing can break the case-sensitive source lookups (see the
counterexample). -/
theorem expandCore_idempotent (schema : List (String × List String))
    (q q2 : EQuery) (scopes : List (String × List String))
    (h : expandCore schema q = .ok (q2, scopes))
    (hnd : (q.ctes.map ECte.name).Nodup)
    (hst : ∀ p ∈ scopes, "*" ∉ p.2) :
    expandCore schema q2 = .ok (q2, scopes) := by
  unfold expandCore at h
  by_cases hc : q.ctes = []
  · rw [if_pos hc] at h; exact absurd h (by simp)
  · rw [if_neg hc] at h
    cases hp : processECtes schema q.ctes [] with
    | error e => rw [hp] at h; exact absurd h (by simp)
    | ok pr =>
      rw [hp] at h
      simp only [Except.ok.injEq, Prod.mk.injEq] at h
      obtain ⟨hq2, hsc⟩ := h
      have hext := processECtes_extends schema q.ctes [] pr.1 pr.2 hp
        (by intro c _; simp) hnd
      have hstp : ∀ p ∈ pr.2, "*" ∉ p.2 := by
        intro p hp2
        exact hst p (hsc ▸ hp2)
      have hidem := processECtes_idem schema q.ctes [] pr.1 pr.2 hp
        (by intro c _; simp) hnd hstp
      have hne : pr.1 ≠ [] := by
        intro he
        apply hc
        have hnm := hext.2
        rw [he] at hnm
        cases hq : q.ctes with
        | nil => rfl
        | cons a l => rw [hq] at hnm; simp at hnm
      subst hq2
      subst hsc
      unfold expandCore
      rw [if_neg (by simpa using hne)]
      simp only
      rw [hidem]
      simp only [find_outer_select]
      rw [replace_star_fixed q.projs _ _ pr.2 hstp]

/-- Witness for C8 at a concrete input: the expansion of
WITH a AS (SELECT * FROM db.sch.raw) SELECT * at the tree level is a fixed
point of a second expansion. -/
theorem expandCore_idempotent_witness :
    expandCore [("db.sch.raw", ["x", "y"])]
      ⟨[⟨"a", [EProj.star], .table ⟨some "db", some "sch", some "raw"⟩⟩],
        [EProj.star]⟩
      = .ok (⟨[⟨"a", [EProj.identP "x", EProj.identP "y"],
                .table ⟨some "db", some "sch", some "raw"⟩⟩],
              [EProj.identP "x", EProj.identP "y"]⟩,
             [("a", ["x", "y"])])
    ∧ expandCore [("db.sch.raw", ["x", "y"])]
        ⟨[⟨"a", [EProj.identP "x", EProj.identP "y"],
           .table ⟨some "db", some "sch", some "raw"⟩⟩],
          [EProj.identP "x", EProj.identP "y"]⟩
      = .ok (⟨[⟨"a", [EProj.identP "x", EProj.identP "y"],
                .table ⟨some "db", some "sch", some "raw"⟩⟩],
              [EProj.identP "x", EProj.identP "y"]⟩,
             [("a", ["x", "y"])]) := by
  have h1 : expandCore [("db.sch.raw", ["x", "y"])]
      ⟨[⟨"a", [EProj.star], .table ⟨some "db", some "sch", some "raw"⟩⟩],
        [EProj.star]⟩
      = .ok (⟨[⟨"a", [EProj.identP "x", EProj.identP "y"],
                .table ⟨some "db", some "sch", some "raw"⟩⟩],
              [EProj.identP "x", EProj.identP "y"]⟩,
             [("a", ["x", "y"])]) := by rfl
  exact ⟨h1, expandCore_idempotent _ _ _ _ h1 (by decide) (by decide)⟩

/-! Lemmas for C5: behavior of the embedded re.sub scanners on placeholder
tokens and on text without opening braces. -/

/-- expectChars consumes exactly its pattern. -/
theorem expectChars_exact (p rest : List Char) :
    expectChars p (p ++ rest) = some rest := by
  induction p with
  | nil => rfl
  | cons c p ih => simp [expectChars, ih]

/-- dropWhile over a prefix wholly satisfying the predicate. -/
theorem dropWhile_append_all (p : Char → Bool) (l r : List Char)
    (h : ∀ x ∈ l, p x = true) :
    (l ++ r).dropWhile p = r.dropWhile p := by
  induction l with
  | nil => simp
  | cons c l ih =>
    have hc := h c (by simp)
    simp only [List.cons_append, List.dropWhile_cons, hc, if_true]
    exact ih (fun x hx => h x (by simp [hx]))

/-- takeWhile and dropWhile on a run satisfying the predicate followed by a
stopping character. -/
theorem scan_run (p : Char → Bool) (l : List Char) (c : Char) (r : List Char)
    (hl : ∀ x ∈ l, p x = true) (hc : p c = false) :
    (l ++ c :: r).takeWhile p = l ∧ (l ++ c :: r).dropWhile p = c :: r := by
  induction l with
  | nil => simp [List.takeWhile_cons, List.dropWhile_cons, hc]
  | cons a l ih =>
    have ha := hl a (by simp)
    have ih2 := ih (fun x hx => hl x (by simp [hx]))
    constructor
    · simp [List.takeWhile_cons, ha, ih2.1]
    · simp [List.dropWhile_cons, ha, ih2.2]

/-- The ref matcher on one well-formed token followed by arbitrary text:
the captured group is the name and the rest is the trailing text. -/
theorem matchRefAt_token (ws1 nm ws2 rest : List Char)
    (hws1 : ∀ c ∈ ws1, c.isWhitespace) (hws2 : ∀ c ∈ ws2, c.isWhitespace)
    (hnm : nm ≠ []) (hq : ∀ c ∈ nm, c ≠ '\x27') :
    matchRefAt (refTokenL ws1 nm ws2 ++ rest) = some (String.mk nm, rest) := by
  have hshape : refTokenL ws1 nm ws2 ++ rest
      = '\x7b' :: '\x7b' :: (ws1 ++ ("ref(".toList
        ++ '\x27' :: (nm ++ '\x27' :: ')' :: (ws2 ++ '\x7d' :: '\x7d' :: rest)))) := by
    simp [refTokenL]
  have h1 : expectChars ['\x7b', '\x7b']
      ('\x7b' :: '\x7b' :: (ws1 ++ ("ref(".toList
        ++ '\x27' :: (nm ++ '\x27' :: ')' :: (ws2 ++ '\x7d' :: '\x7d' :: rest)))))
      = some (ws1 ++ ("ref(".toList
        ++ '\x27' :: (nm ++ '\x27' :: ')' :: (ws2 ++ '\x7d' :: '\x7d' :: rest)))) :=
    expectChars_exact _ _
  have h2 : ((ws1 ++ ("ref(".toList
      ++ '\x27' :: (nm ++ '\x27' :: ')' :: (ws2 ++ '\x7d' :: '\x7d' :: rest)))).dropWhile
        Char.isWhitespace)
      = "ref(".toList ++ '\x27' :: (nm ++ '\x27' :: ')' :: (ws2 ++ '\x7d' :: '\x7d' :: rest)) := by
    rw [dropWhile_append_all Char.isWhitespace ws1 _
      (fun x hx => by simpa using hws1 x hx)]
    rfl
  have h3 : expectChars ("ref(".toList ++ ['\x27'])
      ("ref(".toList ++ '\x27' :: (nm ++ '\x27' :: ')' :: (ws2 ++ '\x7d' :: '\x7d' :: rest)))
      = some (nm ++ '\x27' :: ')' :: (ws2 ++ '\x7d' :: '\x7d' :: rest)) :=
    expectChars_exact _ _
  have hsc := scan_run (fun c => c ≠ '\x27') nm '\x27'
    (')' :: (ws2 ++ '\x7d' :: '\x7d' :: rest))
    (fun x hx => by simpa using hq x hx) (by simp)
  have h4 : expectChars ['\x27', ')']
      ('\x27' :: ')' :: (ws2 ++ '\x7d' :: '\x7d' :: rest))
      = some (ws2 ++ '\x7d' :: '\x7d' :: rest) :=
    expectChars_exact _ _
  have h5 : ((ws2 ++ '\x7d' :: '\x7d' :: rest).dropWhile Char.isWhitespace)
      = '\x7d' :: '\x7d' :: rest := by
    rw [dropWhile_append_all Char.isWhitespace ws2 _
      (fun x hx => by simpa using hws2 x hx)]
    rfl
  have h6 : expectChars ['\x7d', '\x7d'] ('\x7d' :: '\x7d' :: rest) = some rest :=
    expectChars_exact _ _
  rw [hshape]
  unfold matchRefAt
  simp only [h1, h2, h3, hsc.1, hsc.2, hnm, h4, h5, h6, if_neg hnm]
  simp

/-- The source matcher on one well-formed token followed by arbitrary text:
the captured groups are the source name and the table name. -/
theorem matchSourceAt_token (ws1 src wsA wsB nm ws2 rest : List Char)
    (hws1 : ∀ c ∈ ws1, c.isWhitespace) (hwsA : ∀ c ∈ wsA, c.isWhitespace)
    (hwsB : ∀ c ∈ wsB, c.isWhitespace) (hws2 : ∀ c ∈ ws2, c.isWhitespace)
    (hsrc : src ≠ []) (hqs : ∀ c ∈ src, c ≠ '\x27')
    (hnm : nm ≠ []) (hq : ∀ c ∈ nm, c ≠ '\x27') :
    matchSourceAt (sourceTokenL ws1 src wsA wsB nm ws2 ++ rest)
      = some (String.mk src, String.mk nm, rest) := by
  have hshape : sourceTokenL ws1 src wsA wsB nm ws2 ++ rest
      = '\x7b' :: '\x7b' :: (ws1 ++ ("source(".toList
        ++ '\x27' :: (src ++ '\x27' :: (wsA ++ ',' :: (wsB
        ++ '\x27' :: (nm ++ '\x27' :: ')' :: (ws2 ++ '\x7d' :: '\x7d' :: rest))))))) := by
    simp [sourceTokenL]
  have h1 : expectChars ['\x7b', '\x7b']
      ('\x7b' :: '\x7b' :: (ws1 ++ ("source(".toList
        ++ '\x27' :: (src ++ '\x27' :: (wsA ++ ',' :: (wsB
        ++ '\x27' :: (nm ++ '\x27' :: ')' :: (ws2 ++ '\x7d' :: '\x7d' :: rest))))))))
      = some (ws1 ++ ("source(".toList
        ++ '\x27' :: (src ++ '\x27' :: (wsA ++ ',' :: (wsB
        ++ '\x27' :: (nm ++ '\x27' :: ')' :: (ws2 ++ '\x7d' :: '\x7d' :: rest))))))) :=
    expectChars_exact _ _
  have h2 : ((ws1 ++ ("source(".toList
      ++ '\x27' :: (src ++ '\x27' :: (wsA ++ ',' :: (wsB
      ++ '\x27' :: (nm ++ '\x27' :: ')' :: (ws2 ++ '\x7d' :: '\x7d' :: rest))))))).dropWhile
        Char.isWhitespace)
      = "source(".toList
        ++ '\x27' :: (src ++ '\x27' :: (wsA ++ ',' :: (wsB
        ++ '\x27' :: (nm ++ '\x27' :: ')' :: (ws2 ++ '\x7d' :: '\x7d' :: rest))))) := by
    rw [dropWhile_append_all Char.isWhitespace ws1 _
      (fun x hx => by simpa using hws1 x hx)]
    rfl
  have h3 : expectChars ("source(".toList ++ ['\x27'])
      ("source(".toList ++ '\x27' :: (src ++ '\x27' :: (wsA ++ ',' :: (wsB
        ++ '\x27' :: (nm ++ '\x27' :: ')' :: (ws2 ++ '\x7d' :: '\x7d' :: rest))))))
      = some (src ++ '\x27' :: (wsA ++ ',' :: (wsB
        ++ '\x27' :: (nm ++ '\x27' :: ')' :: (ws2 ++ '\x7d' :: '\x7d' :: rest))))) :=
    expectChars_exact _ _
  have hsc1 := scan_run (fun c => c ≠ '\x27') src '\x27'
    (wsA ++ ',' :: (wsB ++ '\x27' :: (nm ++ '\x27' :: ')' :: (ws2 ++ '\x7d' :: '\x7d' :: rest))))
    (fun x hx => by simpa using hqs x hx) (by simp)
  have h4 : expectChars ['\x27']
      ('\x27' :: (wsA ++ ',' :: (wsB ++ '\x27'
        :: (nm ++ '\x27' :: ')' :: (ws2 ++ '\x7d' :: '\x7d' :: rest)))))
      = some (wsA ++ ',' :: (wsB ++ '\x27'
        :: (nm ++ '\x27' :: ')' :: (ws2 ++ '\x7d' :: '\x7d' :: rest)))) :=
    expectChars_exact _ _
  have h5 : ((wsA ++ ',' :: (wsB ++ '\x27' :: (nm ++ '\x27' :: ')'
      :: (ws2 ++ '\x7d' :: '\x7d' :: rest)))).dropWhile Char.isWhitespace)
      = ',' :: (wsB ++ '\x27' :: (nm ++ '\x27' :: ')' :: (ws2 ++ '\x7d' :: '\x7d' :: rest))) := by
    rw [dropWhile_append_all Char.isWhitespace wsA _
      (fun x hx => by simpa using hwsA x hx)]
    rfl
  have h6 : expectChars [',']
      (',' :: (wsB ++ '\x27' :: (nm ++ '\x27' :: ')' :: (ws2 ++ '\x7d' :: '\x7d' :: rest))))
      = some (wsB ++ '\x27' :: (nm ++ '\x27' :: ')' :: (ws2 ++ '\x7d' :: '\x7d' :: rest))) :=
    expectChars_exact _ _
  have h7 : ((wsB ++ '\x27' :: (nm ++ '\x27' :: ')'
      :: (ws2 ++ '\x7d' :: '\x7d' :: rest))).dropWhile Char.isWhitespace)
      = '\x27' :: (nm ++ '\x27' :: ')' :: (ws2 ++ '\x7d' :: '\x7d' :: rest)) := by
    rw [dropWhile_append_all Char.isWhitespace wsB _
      (fun x hx => by simpa using hwsB x hx)]
    rfl
  have h8 : expectChars ['\x27']
      ('\x27' :: (nm ++ '\x27' :: ')' :: (ws2 ++ '\x7d' :: '\x7d' :: rest)))
      = some (nm ++ '\x27' :: ')' :: (ws2 ++ '\x7d' :: '\x7d' :: rest)) :=
    expectChars_exact _ _
  have hsc2 := scan_run (fun c => c ≠ '\x27') nm '\x27'
    (')' :: (ws2 ++ '\x7d' :: '\x7d' :: rest))
    (fun x hx => by simpa using hq x hx) (by simp)
  have h9 : expectChars ['\x27', ')']
      ('\x27' :: ')' :: (ws2 ++ '\x7d' :: '\x7d' :: rest))
      = some (ws2 ++ '\x7d' :: '\x7d' :: rest) :=
    expectChars_exact _ _
  have h10 : ((ws2 ++ '\x7d' :: '\x7d' :: rest).dropWhile Char.isWhitespace)
      = '\x7d' :: '\x7d' :: rest := by
    rw [dropWhile_append_all Char.isWhitespace ws2 _
      (fun x hx => by simpa using hws2 x hx)]
    rfl
  have h11 : expectChars ['\x7d', '\x7d'] ('\x7d' :: '\x7d' :: rest) = some rest :=
    expectChars_exact _ _
  rw [hshape]
  unfold matchSourceAt
  simp only [h1, h2, h3, hsc1.1, hsc1.2, hsrc, h4, h5, h6, h7, h8,
    hsc2.1, hsc2.2, hnm, h9, h10, h11, if_neg hsrc, if_neg hnm]
  simp

/-- The ref scanner steps over a character that opens no brace pair. -/
theorem subRef_cons_no_brace (m : List (String × List String)) (c : Char)
    (cs : List Char) (hc : c ≠ '\x7b') :
    subRef m (c :: cs) = c :: subRef m cs := by
  have hnone : matchRefAt (c :: cs) = none := by
    unfold matchRefAt
    simp [expectChars, hc]
  unfold subRef
  split
  · rename_i nm rest heq
    rw [hnone] at heq
    cases heq
  · rw [← subRef.eq_def]

/-- The source scanner steps over a character that opens no brace pair. -/
theorem subSource_cons_no_brace (m : List (String × List String)) (c : Char)
    (cs : List Char) (hc : c ≠ '\x7b') :
    subSource m (c :: cs) = c :: subSource m cs := by
  have hnone : matchSourceAt (c :: cs) = none := by
    unfold matchSourceAt
    simp [expectChars, hc]
  unfold subSource
  split
  · rename_i g1 g2 rest heq
    rw [hnone] at heq
    cases heq
  · rw [← subSource.eq_def]

/-- Text without opening braces passes through the ref scanner verbatim. -/
theorem subRef_append_no_brace (m : List (String × List String))
    (pre : List Char) (h : ∀ c ∈ pre, c ≠ '\x7b') (cs : List Char) :
    subRef m (pre ++ cs) = pre ++ subRef m cs := by
  induction pre with
  | nil => simp
  | cons c p ih =>
    rw [List.cons_append, subRef_cons_no_brace m c _ (h c (by simp)),
      ih (fun x hx => h x (by simp [hx]))]
    rfl

/-- Text without opening braces passes through the source scanner
verbatim. -/
theorem subSource_append_no_brace (m : List (String × List String))
    (pre : List Char) (h : ∀ c ∈ pre, c ≠ '\x7b') (cs : List Char) :
    subSource m (pre ++ cs) = pre ++ subSource m cs := by
  induction pre with
  | nil => simp
  | cons c p ih =>
    rw [List.cons_append, subSource_cons_no_brace m c _ (h c (by simp)),
      ih (fun x hx => h x (by simp [hx]))]
    rfl

/-- One substitution step of the ref pass at a successful match. -/
theorem subRef_cons_match (m : List (String × List String)) (c : Char)
    (cs : List Char) (nm : String) (rest : List Char)
    (h : matchRefAt (c :: cs) = some (nm, rest)) :
    subRef m (c :: cs)
      = (match refLookup m nm with
         | some full => full.toList
         | none => (c :: cs).take ((c :: cs).length - rest.length))
        ++ subRef m rest := by
  unfold subRef
  split
  · rename_i nm2 rest2 heq
    rw [h] at heq
    injection heq with heq2
    injection heq2 with ha hb
    subst ha
    subst hb
    rw [← subRef.eq_def]
  · rename_i heq
    rw [h] at heq
    cases heq

/-- One substitution step of the source pass at a successful match. -/
theorem subSource_cons_match (m : List (String × List String)) (c : Char)
    (cs : List Char) (g1 g2 : String) (rest : List Char)
    (h : matchSourceAt (c :: cs) = some (g1, g2, rest)) :
    subSource m (c :: cs)
      = (match sourceLookup m g2 with
         | some full => full.toList
         | none => (c :: cs).take ((c :: cs).length - rest.length))
        ++ subSource m rest := by
  unfold subSource
  split
  · rename_i g1b g2b rest2 heq
    rw [h] at heq
    injection heq with heq2
    injection heq2 with ha hbc
    injection hbc with hb hc2
    subst ha
    subst hb
    subst hc2
    rw [← subSource.eq_def]
  · rename_i heq
    rw [h] at heq
    cases heq

/-- find? only looks at predicate values on elements of the list. -/
theorem find?_congr {α : Type} (p q : α → Bool) (l : List α)
    (h : ∀ x ∈ l, p x = q x) : l.find? p = l.find? q := by
  induction l with
  | nil => rfl
  | cons a l ih =>
    rw [List.find?_cons, List.find?_cons, h a (by simp)]
    cases q a with
    | true => rfl
    | false => exact ih (fun x hx => h x (by simp [hx]))

/-- Taking back the left part of an append by length arithmetic. -/
theorem take_of_append (l r : List Char) :
    (l ++ r).take ((l ++ r).length - r.length) = l := by
  have h : (l ++ r).length - r.length = l.length := by
    simp [List.length_append]
  rw [h]
  exact List.take_left l r

/-- For a reference map whose full names all have exactly three dot-separated
parts, the source lookup coincides with the trailing-segment ref lookup. -/
theorem sourceLookup_eq_refLookup (m : List (String × List String))
    (h3 : ∀ kv ∈ m, (pySplitDot kv.1).length = 3) (nmS : String) :
    sourceLookup m nmS = refLookup m nmS := by
  unfold sourceLookup refLookup
  rw [find?_congr _ _ m]
  intro kv hkv
  have h1 := h3 kv hkv
  simp [h1]

/-- C5: the reference resolver.  The ref pass replaces each well-formed ref
placeholder, tolerant of whitespace after the opening braces and before the
closing braces, by the first map entry whose trailing dot-separated segment
equals the quoted name, and leaves the placeholder verbatim when no entry
matches; the source pass does the same for source placeholders, with
whitespace also tolerated around the comma, matching on the quoted table
name; text without opening braces passes through both scanners verbatim; the
lookup takes the first matching entry in map order; for a map whose keys all
have the db.schema.table three-part shape of the data model, the source
lookup is exactly the same trailing-segment match as the ref lookup; and the
resolver is the ref pass followed by the source pass. -/
theorem replace_refs_and_sources_spec
    (m : List (String × List String))
    (h3 : ∀ kv ∈ m, (pySplitDot kv.1).length = 3) :
    (∀ (ws1 nm ws2 rest : List Char),
      (∀ c ∈ ws1, c.isWhitespace) → (∀ c ∈ ws2, c.isWhitespace) →
      nm ≠ [] → (∀ c ∈ nm, c ≠ '\x27') →
      subRef m (refTokenL ws1 nm ws2 ++ rest)
        = (match refLookup m (String.mk nm) with
           | some full => full.toList
           | none => refTokenL ws1 nm ws2) ++ subRef m rest)
    ∧ (∀ (ws1 src wsA wsB nm ws2 rest : List Char),
      (∀ c ∈ ws1, c.isWhitespace) → (∀ c ∈ wsA, c.isWhitespace) →
      (∀ c ∈ wsB, c.isWhitespace) → (∀ c ∈ ws2, c.isWhitespace) →
      src ≠ [] → (∀ c ∈ src, c ≠ '\x27') →
      nm ≠ [] → (∀ c ∈ nm, c ≠ '\x27') →
      subSource m (sourceTokenL ws1 src wsA wsB nm ws2 ++ rest)
        = (match sourceLookup m (String.mk nm) with
           | some full => full.toList
           | none => sourceTokenL ws1 src wsA wsB nm ws2) ++ subSource m rest)
    ∧ (∀ (pre : List Char), (∀ c ∈ pre, c ≠ '\x7b') → ∀ cs : List Char,
        subRef m (pre ++ cs) = pre ++ subRef m cs
        ∧ subSource m (pre ++ cs) = pre ++ subSource m cs)
    ∧ (∀ (k : String) (v : List String) (l : List (String × List String))
        (nmS : String),
        refLookup ((k, v) :: l) nmS
          = if (pySplitDot k).getLastD "" = nmS then some k else refLookup l nmS)
    ∧ (∀ nmS : String, sourceLookup m nmS = refLookup m nmS)
    ∧ (∀ s : String, replace_refs_and_sources_in_sql s m
        = String.mk (subSource m (subRef m s.toList))) := by
  refine ⟨?_, ?_, ?_, ?_, ?_, ?_⟩
  · intro ws1 nm ws2 rest hws1 hws2 hnm hq
    have hm := matchRefAt_token ws1 nm ws2 rest hws1 hws2 hnm hq
    have hshape : refTokenL ws1 nm ws2 ++ rest
        = '\x7b' :: ('\x7b' :: (ws1 ++ ("ref(".toList
          ++ '\x27' :: (nm ++ '\x27' :: ')' :: (ws2 ++ '\x7d' :: '\x7d' :: rest))))) := by
      simp [refTokenL]
    rw [hshape] at hm
    rw [hshape, subRef_cons_match m _ _ _ _ hm]
    cases hr : refLookup m (String.mk nm) with
    | some full => rfl
    | none =>
      congr 1
      rw [← hshape]
      exact take_of_append _ _
  · intro ws1 src wsA wsB nm ws2 rest hws1 hwsA hwsB hws2 hsrc hqs hnm hq
    have hm := matchSourceAt_token ws1 src wsA wsB nm ws2 rest
      hws1 hwsA hwsB hws2 hsrc hqs hnm hq
    have hshape : sourceTokenL ws1 src wsA wsB nm ws2 ++ rest
        = '\x7b' :: ('\x7b' :: (ws1 ++ ("source(".toList
          ++ '\x27' :: (src ++ '\x27' :: (wsA ++ ',' :: (wsB
          ++ '\x27' :: (nm ++ '\x27' :: ')' :: (ws2 ++ '\x7d' :: '\x7d' :: rest)))))))) := by
      simp [sourceTokenL]
    rw [hshape] at hm
    rw [hshape, subSource_cons_match m _ _ _ _ _ hm]
    cases hr : sourceLookup m (String.mk nm) with
    | some full => rfl
    | none =>
      congr 1
      rw [← hshape]
      exact take_of_append _ _
  · intro pre hpre cs
    exact ⟨subRef_append_no_brace m pre hpre cs,
      subSource_append_no_brace m pre hpre cs⟩
  · intro k v l nmS
    by_cases hk : (pySplitDot k).getLastD "" = nmS
    · rw [if_pos hk]
      unfold refLookup
      rw [List.find?_cons_of_pos _ (by simpa using hk)]
      rfl
    · rw [if_neg hk]
      unfold refLookup
      rw [List.find?_cons_of_neg _ (by simpa using hk)]
  · exact sourceLookup_eq_refLookup m h3
  · intro s
    rfl

/-- Witness for C5 at concrete inputs: a map with two entries whose trailing
segment is orders (the first encountered wins), one token with inner
whitespace replaced, one unresolved token left verbatim, and the agreement of
the two lookups. -/
theorem replace_refs_and_sources_spec_witness :
    (∀ kv ∈ [("d.s.orders", ["a"]), ("d2.s2.orders", ["b"]),
        ("d.s.payments", ["c"])], (pySplitDot kv.1).length = 3)
    ∧ subRef [("d.s.orders", ["a"]), ("d2.s2.orders", ["b"]),
        ("d.s.payments", ["c"])]
        (refTokenL [' '] "orders".toList [' '] ++ [])
      = "d.s.orders".toList
        ++ subRef [("d.s.orders", ["a"]), ("d2.s2.orders", ["b"]),
            ("d.s.payments", ["c"])] []
    ∧ subRef [("d.s.orders", ["a"]), ("d2.s2.orders", ["b"]),
        ("d.s.payments", ["c"])]
        (refTokenL [] "missing".toList [] ++ [])
      = refTokenL [] "missing".toList []
        ++ subRef [("d.s.orders", ["a"]), ("d2.s2.orders", ["b"]),
            ("d.s.payments", ["c"])] []
    ∧ subSource [("d.s.orders", ["a"]), ("d2.s2.orders", ["b"]),
        ("d.s.payments", ["c"])]
        (sourceTokenL [' '] "ecom".toList [] [' '] "payments".toList [' '] ++ [])
      = "d.s.payments".toList
        ++ subSource [("d.s.orders", ["a"]), ("d2.s2.orders", ["b"]),
            ("d.s.payments", ["c"])] []
    ∧ sourceLookup [("d.s.orders", ["a"]), ("d2.s2.orders", ["b"]),
        ("d.s.payments", ["c"])] "orders"
      = refLookup [("d.s.orders", ["a"]), ("d2.s2.orders", ["b"]),
        ("d.s.payments", ["c"])] "orders" := by
  have hs := replace_refs_and_sources_spec
    [("d.s.orders", ["a"]), ("d2.s2.orders", ["b"]), ("d.s.payments", ["c"])]
    (by decide)
  refine ⟨by decide, ?_, ?_, ?_, hs.2.2.2.2.1 "orders"⟩
  · have h := hs.1 [' '] "orders".toList [' '] [] (by decide) (by decide)
      (by decide) (by decide)
    rw [h]
    rw [show refLookup [("d.s.orders", ["a"]), ("d2.s2.orders", ["b"]),
      ("d.s.payments", ["c"])] (String.mk "orders".toList) = some "d.s.orders"
      by decide]
  · have h := hs.1 [] "missing".toList [] [] (by decide) (by decide)
      (by decide) (by decide)
    rw [h]
    rw [show refLookup [("d.s.orders", ["a"]), ("d2.s2.orders", ["b"]),
      ("d.s.payments", ["c"])] (String.mk "missing".toList) = none by decide]
  · have h := hs.2.1 [' '] "ecom".toList [] [' '] "payments".toList [' '] []
      (by decide) (by decide) (by decide) (by decide) (by decide) (by decide)
      (by decide) (by decide)
    rw [h]
    rw [show sourceLookup [("d.s.orders", ["a"]), ("d2.s2.orders", ["b"]),
      ("d.s.payments", ["c"])] (String.mk "payments".toList) = some "d.s.payments"
      by decide]

end LineageSG
